import Mathlib

/-!
# Verification of the truth-ledger tooling

Shallow embedding of the transactional versioned-ledger tools
(`tools/truth_manager.py`, `tools/repo_walk.py`, `tools/repo_backup.py`,
`tools/make_truth_zip.py`, `tools/verify_truth.py`,
`tools/validate_backup_zip.py`, `tools/repair_truth_md.py`,
`tools/truth_config.py`) and proofs about the embedded operations.

Text is modelled as Lean `String`s; relative file paths are modelled as
their `pathlib` part lists (`List String`); file-system state touched by
the confirm transaction is modelled explicitly as a record.
-/

set_option maxHeartbeats 1000000
set_option linter.unusedVariables false

namespace Spec2Proof

/-! ## Python string primitives

Helpers mirroring the Python string operations used by the tools.
Python `str.strip()` removes unicode whitespace; the inputs handled by the
tools only contain ASCII whitespace, which is what `isPySpace` covers.
-/

/-- Characters Python `str.strip()` removes (ASCII whitespace). -/
def isPySpace (c : Char) : Bool :=
  c = ' ' || c = '\t' || c = '\n' || c = '\r' || c = '\x0b' || c = '\x0c'

/-- Drop trailing characters satisfying `p` (Python `rstrip`). -/
def dropTrailingWhile (p : Char → Bool) (l : List Char) : List Char :=
  (l.reverse.dropWhile p).reverse

/-- Python `s.strip()` on a character list. -/
def pyStripChars (l : List Char) : List Char :=
  dropTrailingWhile isPySpace (l.dropWhile isPySpace)

/-- Python `s.strip()`. -/
def pyStrip (s : String) : String := ⟨pyStripChars s.data⟩

/-- Python `s.rstrip("\n")`. -/
def pyRstripNl (s : String) : String := ⟨dropTrailingWhile (fun c => c = '\n') s.data⟩

/-- Python `s.strip("\n")`. -/
def pyStripNl (s : String) : String :=
  ⟨dropTrailingWhile (fun c => c = '\n') (s.data.dropWhile (fun c => c = '\n'))⟩

/-- Python `s.lstrip("﻿")` (`_strip_bom` in `truth_manager.py`). -/
def pyStripBom (s : String) : String := ⟨s.data.dropWhile (fun c => c = '﻿')⟩

/-- `"\r\n" -> "\n"` then `"\r" -> "\n"` (`_norm_newlines`). -/
def normNewlinesChars : List Char → List Char
  | [] => []
  | '\r' :: '\n' :: rest => '\n' :: normNewlinesChars rest
  | '\r' :: rest => '\n' :: normNewlinesChars rest
  | c :: rest => c :: normNewlinesChars rest

/-- Python `_norm_newlines` / `_normalize_newlines`. -/
def normNewlines (s : String) : String := ⟨normNewlinesChars s.data⟩

/-- Python `s.split(c)` (always returns at least one piece). -/
def splitOnChar (c : Char) : List Char → List (List Char)
  | [] => [[]]
  | x :: xs =>
    match splitOnChar c xs with
    | [] => [[]]
    | h :: t => if x = c then [] :: h :: t else (x :: h) :: t

/-- Python `c.join(pieces)`. -/
def joinChar (c : Char) : List (List Char) → List Char
  | [] => []
  | [x] => x
  | x :: y :: r => x ++ c :: joinChar c (y :: r)

/-- Python `s.split("\n")`. -/
def splitLines (s : String) : List String := (splitOnChar '\n' s.data).map String.mk

/-- Python `"\n".join(lines)`. -/
def joinLines (l : List String) : String := ⟨joinChar '\n' (l.map String.data)⟩

/-- `pathlib.PurePath.suffix`: the final `.ext` of a file name, empty when the
only dot is leading or trailing or there is no dot. -/
def pySuffix (name : String) : String :=
  let rev := name.data.reverse
  let afterDot := rev.takeWhile (fun c => c ≠ '.')
  if afterDot.length = rev.length then ""
  else if afterDot.length = 0 then ""
  else if afterDot.length + 1 = rev.length then ""
  else ⟨'.' :: afterDot.reverse⟩

/-- Python `str.lower()` for the ASCII names the tools handle. -/
def pyLower (s : String) : String := ⟨s.data.map Char.toLower⟩

/-- `pathlib` `as_posix()` of a part list / `"/".join(parts)`. -/
def joinParts (parts : List String) : String := ⟨joinChar '/' (parts.map String.data)⟩

instance {ε α : Type} [DecidableEq ε] [DecidableEq α] : DecidableEq (Except ε α)
  | .ok a, .ok b =>
    if h : a = b then .isTrue (by rw [h])
    else .isFalse (by intro hc; cases hc; exact h rfl)
  | .ok _, .error _ => .isFalse (by intro h; cases h)
  | .error _, .ok _ => .isFalse (by intro h; cases h)
  | .error e, .error f =>
    if h : e = f then .isTrue (by rw [h])
    else .isFalse (by intro hc; cases hc; exact h rfl)

/-- Replace every occurrence of character `a` by `b` (Python `s.replace`). -/
def replaceChar (a b : Char) (s : String) : String :=
  ⟨s.data.map (fun c => if c = a then b else c)⟩

/-- Python `s.strip(chars)` for a character class. -/
def pyStripOn (bad : Char → Bool) (s : String) : String :=
  ⟨dropTrailingWhile bad (s.data.dropWhile bad)⟩

/-- Keep the first occurrence of each element (Python `dict.fromkeys` dedup). -/
def dedupFirst : List String → List String
  | [] => []
  | x :: xs => x :: (dedupFirst xs).filter (fun y => y ≠ x)

/-- Stable insertion into a sorted list (used to model Python `list.sort`). -/
def insertLe {α : Type} (le : α → α → Bool) (x : α) : List α → List α
  | [] => [x]
  | y :: ys => if le x y then x :: y :: ys else y :: insertLe le x ys

/-- Stable sort by `le` (Python `list.sort(key=...)` is a stable sort; only
membership and stability of the result are relied on by the tools). -/
def sortLe {α : Type} (le : α → α → Bool) : List α → List α
  | [] => []
  | x :: xs => insertLe le x (sortLe le xs)

/-! ## Exclusion policy (`tools/truth_config.py`)

`ConfigData` models the JSON object in `tools/truth_config.json` as read by
`json.loads`; a `none` field models an absent key (or, for the list fields,
an explicit `null`), for which the loaders substitute their defaults.
JSON values of the wrong type make `Config.load` raise and are not
represented. -/

structure ConfigData where
  zip_root : Option String := none
  ai_index_root : Option String := none
  draft_root : Option String := none
  exclude_common_folders : Option (List String) := none
  exclude_common_files : Option (List String) := none
  slim_exclude_folders : Option (List String) := none
  slim_exclude_ext : Option (List String) := none
  slim_exclude_extra_folders : Option (List String) := none
  forbidden_marker_substrings : Option (List String) := none
  truth_phases_required : Option Bool := none
deriving Repr, DecidableEq

/-- Default `exclude_common_folders` of the `Config` dataclass. -/
def defaultExcludeCommonFolders : List String :=
  [".git", "__pycache__", "_logs", "_outputs", "_build", "_dist",
   ".venv", "venv", "env", "_truth", "_truth_backups", "_truth_drafts", "_ai_index"]

/-- Default `exclude_common_files` of the `Config` dataclass. -/
def defaultExcludeCommonFiles : List String := [".env"]

/-- `truth_config.Config` after `Config.load`. -/
structure Config where
  zip_root : String
  ai_index_root : String
  draft_root : String
  exclude_common_folders : List String
  exclude_common_files : List String
  slim_exclude_folders : List String
  slim_exclude_ext : List String
  slim_exclude_extra_folders : List String
  forbidden_marker_substrings : List String
  truth_phases_required : Bool
deriving Repr, DecidableEq

/-- `Config.load`: field defaults plus the final merge of the artifact roots
into `exclude_common_folders`. Python builds the merge from the *set*
`{zip_root, ai_index_root, draft_root}` (iteration order unspecified) and
dedups with `dict.fromkeys`; only membership in the merged list is ever
used, which `dedupFirst` over the concatenation reproduces. -/
def Config.load (data : ConfigData) : Config :=
  let zr := data.zip_root.getD "_truth"
  let air := data.ai_index_root.getD "_ai_index"
  let dr := data.draft_root.getD "_truth_drafts"
  let base := data.exclude_common_folders.getD defaultExcludeCommonFolders
  { zip_root := zr
    ai_index_root := air
    draft_root := dr
    exclude_common_folders :=
      dedupFirst (base ++ ([zr, air, dr].filter (fun r => r ≠ "")))
    exclude_common_files := data.exclude_common_files.getD defaultExcludeCommonFiles
    slim_exclude_folders := data.slim_exclude_folders.getD []
    slim_exclude_ext := data.slim_exclude_ext.getD []
    slim_exclude_extra_folders := data.slim_exclude_extra_folders.getD []
    forbidden_marker_substrings := data.forbidden_marker_substrings.getD []
    truth_phases_required := data.truth_phases_required.getD true }

/-! ## Canonical enumerator (`tools/repo_walk.py`)

A repo-relative file path is modelled as its `pathlib` part list
(`rel.parts`); a directory snapshot is the list of such paths that
`REPO_ROOT.rglob("*")` yields for regular files, in traversal order. -/

/-- `pathlib` `rel.name` (paths produced by the walk are never empty). -/
def relName (rel : List String) : String := rel.getLastD ""

/-- `_has_any_part`. -/
def hasAnyPart (rel : List String) (names : List String) : Bool :=
  rel.any (fun part => names.contains part)

/-- `repo_walk.should_exclude`. Python's early-`return True` chain is written
as a disjunction of the same guards, in the same order. -/
def should_exclude (rel : List String) (cfg : Config) (slim : Bool)
    (allowTopLevel : List String) : Bool :=
  let excludeFolders :=
    match rel with
    | r0 :: _ =>
      if allowTopLevel.contains r0 then
        cfg.exclude_common_folders.filter (fun x => x ≠ r0)
      else cfg.exclude_common_folders
    | [] => cfg.exclude_common_folders
  rel.contains ".git"
    || hasAnyPart rel excludeFolders
    || cfg.exclude_common_files.contains (relName rel)
    || (slim &&
        (hasAnyPart rel (cfg.slim_exclude_folders ++ cfg.slim_exclude_extra_folders)
          || (cfg.slim_exclude_ext.map pyLower).contains (pyLower (pySuffix (relName rel)))))

/-- Sort key of `list_repo_files`: `p.as_posix().lower()`. All enumerated
paths share the absolute repo-root part, so the relative posix key induces
the same order. -/
def walkSortKey (rel : List String) : String := pyLower (joinParts rel)

/-- Lexicographic code-point comparison of the sort keys (Python string
`<=`). -/
def lexLe : List Char → List Char → Bool
  | [], _ => true
  | _ :: _, [] => false
  | x :: xs, y :: ys =>
    if x.toNat < y.toNat then true
    else if y.toNat < x.toNat then false
    else lexLe xs ys

def walkKeyLe (a b : List String) : Bool := lexLe (walkSortKey a).data (walkSortKey b).data

/-- `repo_walk.list_repo_files` (the `files` field of its `WalkResult`). -/
def list_repo_files (cfg : Config) (slim : Bool) (allowTopLevel : List String)
    (snapshot : List (List String)) : List (List String) :=
  sortLe walkKeyLe
    (snapshot.filter (fun rel => !should_exclude rel cfg slim allowTopLevel))

/-! ## Backup snapshot walker (`tools/repo_backup.py`)

`repo_backup` does NOT call the canonical enumerator: it re-reads the raw
JSON config (`cfg.get(key, [])`, so missing keys default to empty, not to
the `Config` defaults) and uses its own `_should_exclude`. -/

/-- `repo_backup._should_exclude`: configured folder names are matched only
against the FIRST path component (`parts[0]`), unlike the canonical
enumerator; `.git`/`__pycache__` are matched anywhere, `.pyc` files and the
top-level backup/draft roots are always excluded. -/
def backup_should_exclude (rel : List String) (data : ConfigData) : Bool :=
  match rel with
  | [] => false
  | r0 :: _ =>
    rel.contains ".git" || rel.contains "__pycache__"
      || pyLower (pySuffix (relName rel)) = ".pyc"
      || (data.exclude_common_folders.getD []).contains r0
      || (data.exclude_common_files.getD []).contains (relName rel)
      || (r0 = "_truth_backups" || r0 = data.draft_root.getD "_truth_drafts")

/-- `repo_backup._iter_repo_files_for_backup`: the repo-relative paths the
backup zip archives (same traversal snapshot and sort key as the walk). -/
def iter_repo_files_for_backup (data : ConfigData)
    (snapshot : List (List String)) : List (List String) :=
  sortLe walkKeyLe
    (snapshot.filter (fun rel => !backup_should_exclude rel data))

/-! ## Release archive builder (`tools/make_truth_zip.py`) -/

/-- The member-writing loop of `make_zip` with its case-insensitive
duplicate check; `.error` models the `RuntimeError` raised on a duplicate
archive path. -/
def makeZipMembersGo (seen : List String) :
    List (List String) → Except String (List (List String))
  | [] => .ok []
  | arc :: rest =>
    let key := pyLower (joinParts arc)
    if seen.contains key then
      .error ("truth zip contains duplicate archive path: " ++ joinParts arc)
    else
      match makeZipMembersGo (key :: seen) rest with
      | .ok ms => .ok (arc :: ms)
      | .error e => .error e

/-- The archive member paths `make_zip` writes: canonical enumerator output
(default `allow_top_level`, i.e. none) nested under the project prefix. -/
def make_zip_members (project : String) (cfg : Config) (slim : Bool)
    (snapshot : List (List String)) : Except String (List (List String)) :=
  let projPfx := pyStripOn (fun c => c = '\\') (pyStripOn (fun c => c = '/') (pyStrip project))
  if projPfx = "" then .error "project name is empty"
  else
    makeZipMembersGo []
      ((list_repo_files cfg slim [] snapshot).map (fun rel => projPfx :: rel))

/-! ## Post-phase slim-contents check (`tools/verify_truth.py::verify_slim_contents`) -/

/-- `verify_slim_contents`. `_load_truth_config()` returns the parsed JSON
`dict`; the source then reads the forbidden sets with
`getattr(cfg, "exclude_common_folders", [])` etc. — but `getattr` on a
`dict` looks up *attributes*, not mapping keys, so every lookup yields its
supplied default and all forbidden sets are empty, regardless of `cfgData`.
The member loop (folder tokens anywhere in the path, else the final
extension) is embedded as written. -/
def verify_slim_contents (cfgData : ConfigData) (names : List String) :
    Except String Unit :=
  let forbiddenFolders : List String := []
  let forbiddenExts : List String := []
  let offenders := names.filterMap (fun name =>
    let parts := ((splitOnChar '/' (replaceChar '\\' '/' name).data).map String.mk).filter
      (fun p => p ≠ "")
    if parts = [] then none
    else if parts.dropLast.any (fun token => forbiddenFolders.contains token) then
      some (name ++ " (folder)")
    else
      let suffix := pyLower (pySuffix (relName parts))
      if suffix ≠ "" && forbiddenExts.contains suffix then some (name ++ " (ext)")
      else none)
  if offenders.isEmpty then .ok ()
  else .error "SLIM zip contains forbidden content"

/-! ## Backup zip validation (`tools/validate_backup_zip.py`)

The validator is modelled down to the manifest hash loop. The zip on disk
is `none` when the path does not exist; `sha` abstracts `hashlib.sha256`
of a member's bytes. -/

/-- One element of the `files` *list* that `validate_backup_zip` expects in
`BACKUP_MANIFEST.json` (`path`/`sha256` are `None` when absent). -/
structure ManifestEntry where
  isObj : Bool
  path : Option String
  sha256 : Option String
deriving Repr, DecidableEq

/-- Result of `_read_manifest` plus the `manifest.get("files")` lookup. -/
inductive ManifestFiles
  | memberMissing
  | filesNotList
  | files (entries : List ManifestEntry)
deriving Repr, DecidableEq

/-- A backup zip's relevant content: its `namelist()`, member bytes
(`none` models `KeyError`), and its decoded manifest. -/
structure ZipData where
  names : List String
  read : String → Option String
  manifest : ManifestFiles

/-- `BackupZipReport` (only the fields the claims touch). -/
structure BackupZipReport where
  ok : Bool
  errors : List String
deriving Repr, DecidableEq

/-- The manifest verification loop of `validate_backup_zip`. -/
def checkManifestEntries (root : String) (z : ZipData) (sha : String → String) :
    List ManifestEntry → Option String
  | [] => none
  | e :: rest =>
    if !e.isObj then some "BACKUP_MANIFEST.json invalid: file entry not an object"
    else
      match e.path with
      | none => some "BACKUP_MANIFEST.json invalid: entry.path not a string"
      | some rel =>
        match e.sha256 with
        | none => checkManifestEntries root z sha rest
        | some exp =>
          let arc := replaceChar '\\' '/' (root ++ "/" ++ rel)
          match z.read arc with
          | none => some ("manifest file missing in zip: " ++ arc)
          | some bytes =>
            if pyLower (sha bytes) ≠ pyLower exp then some ("sha256 mismatch: " ++ arc)
            else checkManifestEntries root z sha rest

/-- The top-level folders of the archive (`roots` set; kept as a deduped
list, only its size and sole element are used). -/
def zipRootsOf (names : List String) : List String :=
  dedupFirst (names.filterMap (fun n =>
    if n = "" || n.data.getLast? = some '/' then none
    else some (((splitOnChar '/' n.data).map String.mk).headD "")))

/-- `validate_backup_zip`: returns a report, and — every failure path being
a `return report` and the whole body sitting under a catch-all `except`
that also just returns the report — it NEVER raises. -/
def validate_backup_zip (zipOnDisk : Option ZipData) (sha : String → String) :
    BackupZipReport :=
  match zipOnDisk with
  | none => { ok := false, errors := ["No such file or directory"] }
  | some z =>
    if !z.names.Nodup then
      { ok := false, errors := ["backup zip contains duplicate archive paths"] }
    else
      let roots := zipRootsOf z.names
      if roots.length ≠ 1 then
        { ok := false, errors := ["backup zip must contain exactly one top-level folder"] }
      else
        let root := roots.headD ""
        match z.manifest with
        | .memberMissing => { ok := true, errors := [] }
        | .filesNotList =>
          { ok := false, errors := ["BACKUP_MANIFEST.json invalid: missing files list"] }
        | .files entries =>
          match checkManifestEntries root z sha entries with
          | some e => { ok := false, errors := [e] }
          | none => { ok := true, errors := [] }

/-! ## Post-phase backup check (`tools/verify_truth.py::verify_last_before_confirm_backup_if_present`) -/

/-- The marker file `_truth/last_before_confirm_backup.json`:
`validJson` is whether `json.loads` succeeds, `backupZip` is
`payload.get("backup_zip")` (`none` models absent/null). -/
structure BackupMarker where
  validJson : Bool
  backupZip : Option String
deriving Repr, DecidableEq

/-- `verify_last_before_confirm_backup_if_present`. The call to
`validate_backup_zip` sits in a `try`/`except fail(...)`, but the callee
returns its report instead of raising (see `validate_backup_zip`), and the
returned report is discarded — so the `fail` branch for an invalid archive
is unreachable. -/
def verify_last_before_confirm_backup_if_present
    (marker : Option BackupMarker) (zipOnDisk : String → Option ZipData)
    (sha : String → String) : Except String Unit :=
  match marker with
  | none => .ok ()
  | some m =>
    if !m.validJson then .error "backup marker is not valid JSON"
    else
      let backupZip := pyStrip (m.backupZip.getD "")
      if backupZip = "" then .error "backup marker missing backup_zip"
      else
        let _report := validate_backup_zip (zipOnDisk backupZip) sha
        .ok ()

/-! ## TRUTH header parsing (`_TRUTH_HEADER_RE` in `tools/truth_manager.py`)

Regex: `^TRUTH\s*[-–—]\s*(.+)\s+\(TRUTH_V(\d+)\)\s*(?:\[(CONFIRM|DREAM|DEBUG)\])?\s*$`.

The pattern is deterministic enough to implement directly: after `TRUTH`,
optional whitespace and one dash variant; the version group must sit at the
end of the line (modulo the optional type tag and whitespace), so exactly
the LAST `(TRUTH_V<digits>)` chunk can match; greedy `(.+)\s+` accepts any
segment of length ≥ 2 ending in whitespace, and since every caller uses
`m.group(1).strip()`, the project is returned stripped. -/

def isAsciiDigit (c : Char) : Bool := '0' ≤ c && c ≤ '9'

def digitsToNat (ds : List Char) : Nat :=
  ds.foldl (fun n c => 10 * n + (c.toNat - '0'.toNat)) 0

/-- Decimal rendering of a version number (Python f-string `{v}`). -/
def natToDigits : Nat → Nat → List Char
  | 0, _ => []
  | fuel + 1, n =>
    if n < 10 then [Char.ofNat (48 + n)]
    else natToDigits fuel (n / 10) ++ [Char.ofNat (48 + n % 10)]

def natToString (n : Nat) : String := ⟨natToDigits (n + 1) n⟩

/-- Remove `suf` from the end of `l`, if present. -/
def dropSuffixIf (suf : List Char) (l : List Char) : Option (List Char) :=
  if suf.isSuffixOf l then some (l.take (l.length - suf.length)) else none

/-- The dash variants `[-–—]` tolerated by the header regex. -/
def headerDash (c : Char) : Bool := c = '-' || c = '–' || c = '—'

/-- Match `\s*(.+)\s+\(TRUTH_V(\d+)\)\s*(?:\[(CONFIRM|DREAM|DEBUG)\])?\s*$`
against the characters following the dash. -/
def parseHeaderTail (t : List Char) : Option (String × Nat × Option String) :=
  let t1 := dropTrailingWhile isPySpace t
  let tagged : List Char × Option String :=
    match dropSuffixIf "[CONFIRM]".data t1 with
    | some u => (dropTrailingWhile isPySpace u, some "CONFIRM")
    | none =>
      match dropSuffixIf "[DREAM]".data t1 with
      | some u => (dropTrailingWhile isPySpace u, some "DREAM")
      | none =>
        match dropSuffixIf "[DEBUG]".data t1 with
        | some u => (dropTrailingWhile isPySpace u, some "DEBUG")
        | none => (t1, none)
  match dropSuffixIf [')'] tagged.1 with
  | none => none
  | some t3 =>
    let rev := t3.reverse
    let ds := rev.takeWhile isAsciiDigit
    if ds.isEmpty then none
    else
      let rest := rev.drop ds.length
      if "(TRUTH_V".data.reverse.isPrefixOf rest then
        let mrev := rest.drop 8
        match mrev with
        | c :: _ :: _ =>
          if isPySpace c then
            some (⟨pyStripChars mrev.reverse⟩, digitsToNat ds.reverse, tagged.2)
          else none
        | _ => none
      else none

/-- `_TRUTH_HEADER_RE.match(line)` (callers pass the already-stripped line);
returns `(project.strip(), version, type tag)`. -/
def parseHeaderLine (line : String) : Option (String × Nat × Option String) :=
  let l := line.data
  if "TRUTH".data.isPrefixOf l then
    match (l.drop 5).dropWhile isPySpace with
    | [] => none
    | d :: r2 => if headerDash d then parseHeaderTail r2 else none
  else none

/-! ## Ledger block normalization and append (`tools/truth_manager.py`) -/

def startsWithStr (p s : String) : Bool := p.data.isPrefixOf s.data

/-- `_normalize_truth_candidate`: tolerate markdown heading prefix on
control lines and normalize `* ` bullets to `- `. -/
def normalizeTruthCandidate (line : String) : String :=
  let s : String := ⟨dropTrailingWhile (fun c => c = '\r' || c = '\n') (pyStripBom line).data⟩
  let indent : List Char := s.data.takeWhile isPySpace
  let core := pyStrip s
  if startsWithStr "#" core then
    let stripped := pyStrip ⟨core.data.dropWhile (fun c => c = '#')⟩
    if (parseHeaderLine stripped).isSome
        || stripped = "LOCKED" || stripped = "LOCKED PRE"
        || stripped = "LOCKED POST" || stripped = "END" then
      ⟨indent ++ stripped.data⟩
    else s
  else if startsWithStr "* " core then ⟨indent ++ '-' :: ' ' :: core.data.drop 2⟩
  else s

/-- The normalized candidate lines `append_truth_md_verbatim` works on. -/
def appendBlockLines (blockText : String) : List String :=
  (splitLines (pyStripNl (pyStripBom (normNewlines blockText)) ++ "\n")).map
    normalizeTruthCandidate

/-- Whether some line strips (BOM + whitespace) to exactly `marker`. -/
def hasMarkerLine (marker : String) (lines : List String) : Bool :=
  lines.any (fun l => pyStrip (pyStripBom l) = marker)

/-- The header-locating loop of `append_truth_md_verbatim`: index, project
and version of the FIRST line matching the header regex. -/
def findFirstHeader : List String → Option (Nat × String × Nat)
  | [] => none
  | l :: rest =>
    match parseHeaderLine (pyStrip (pyStripBom l)) with
    | some (p, v, _) => some (0, p, v)
    | none =>
      match findFirstHeader rest with
      | some (i, p, v) => some (i + 1, p, v)
      | none => none

/-- Index of the first line stripping to `END`. -/
def findEndIdx : List String → Option Nat
  | [] => none
  | l :: rest =>
    if pyStrip (pyStripBom l) = "END" then some 0
    else (findEndIdx rest).map (· + 1)

/-- The phased-headers requirement of `append_truth_md_verbatim` (checked
only when `truth_phases_required`): legacy `LOCKED` forbidden, `LOCKED PRE`
and `LOCKED POST` both present. -/
def phasedBlockOk (phasesRequired : Bool) (lines : List String) : Bool :=
  !phasesRequired
    || (!hasMarkerLine "LOCKED" lines
        && hasMarkerLine "LOCKED PRE" lines && hasMarkerLine "LOCKED POST" lines)

/-- `append_truth_md_verbatim`, acting on the current `TRUTH.md` text
(`curText`; the missing-file check is outside the model) and returning the
new text, or the message of the `RuntimeError` raised. The two phase checks
are performed in source order (legacy first); writes happen only at the
very end, so an error leaves the ledger untouched. -/
def append_truth_md_verbatim (project : String) (newVer : Nat) (blockText : String)
    (phasesRequired : Bool) (curText : String) : Except String String :=
  let lines := appendBlockLines blockText
  match findFirstHeader lines with
  | none => .error "TRUTH block missing header line"
  | some (hidx, gotProject, gotVer) =>
    if gotProject ≠ project then
      .error ("TRUTH project mismatch: got " ++ gotProject ++ " expected " ++ project)
    else if gotVer ≠ newVer then
      .error ("TRUTH version mismatch: got TRUTH_V" ++ natToString gotVer
        ++ " expected TRUTH_V" ++ natToString newVer)
    else if !hasMarkerLine "END" lines then
      .error "TRUTH block missing END terminator line"
    else if phasesRequired && hasMarkerLine "LOCKED" lines then
      .error "TRUTH block contains legacy LOCKED header (phases required)"
    else if phasesRequired
        && !(hasMarkerLine "LOCKED PRE" lines && hasMarkerLine "LOCKED POST" lines) then
      .error "TRUTH block missing required phased headers: LOCKED PRE and LOCKED POST"
    else
      let lines2 := lines.drop hidx
      let lines3 :=
        match findEndIdx lines2 with
        | some e => lines2.take (e + 1)
        | none => lines2
      let block := pyStripNl (joinLines lines3) ++ "\n"
      let cur := pyRstripNl (normNewlines curText) ++ "\n\n"
      .ok (cur ++ block ++ "\n")

/-- The ledger text after an append attempt (an error is raised before any
write, leaving `curText` in place). -/
def append_state (project : String) (newVer : Nat) (blockText : String)
    (phasesRequired : Bool) (curText : String) : String :=
  match append_truth_md_verbatim project newVer blockText phasesRequired curText with
  | .ok out => out
  | .error _ => curText

/-! ## Draft store (`tools/truth_manager.py`) -/

/-- `get_draft_path` file name: `<project>_TRUTH_V<ver>_DRAFT.txt`. -/
def draftFileName (project : String) (ver : Nat) : String :=
  project ++ "_TRUTH_V" ++ natToString ver ++ "_DRAFT.txt"

/-- `_DRAFT_FILE_RE` (`^(.+)_TRUTH_V(\d+)_DRAFT\.txt$`, IGNORECASE)
combined with the `glob("<project>_TRUTH_V*_DRAFT.txt")` filter applied
first by `find_pending_draft`. Greedy `(.+)` means the digits are the
maximal digit run right before `_DRAFT.txt`, preceded by `_TRUTH_V` and a
nonempty group. -/
def draftVerOf (project name : String) : Option Nat :=
  if !(project ++ "_TRUTH_V").data.isPrefixOf name.data then none
  else if !"_DRAFT.txt".data.isSuffixOf name.data then none
  else if name.length < (project ++ "_TRUTH_V").length + "_DRAFT.txt".length then none
  else
    match dropSuffixIf "_draft.txt".data (pyLower name).data with
    | none => none
    | some t =>
      let rev := t.reverse
      let ds := rev.takeWhile isAsciiDigit
      if ds.isEmpty then none
      else
        let rest := rev.drop ds.length
        if "_truth_v".data.reverse.isPrefixOf rest then
          if (rest.drop 8).isEmpty then none
          else some (digitsToNat ds.reverse)
        else none

/-- `find_pending_draft` over the draft-directory listing: the
highest-versioned matching draft (strict `>`, so the first seen wins ties,
matching the source loop over directory order); `none` when the directory
is missing or holds no match. -/
def find_pending_draft (project : String) (names : List String) : Option (Nat × String) :=
  names.foldl (fun best name =>
    match draftVerOf project name with
    | none => best
    | some v =>
      match best with
      | none => some (v, name)
      | some (bv, bn) => if v > bv then some (v, name) else some (bv, bn)) none

/-! ## Configuration as loaded by `truth_manager.TruthConfig.load`

Unlike `truth_config.Config.load`, this loader defaults the list fields to
empty, defaults `truth_phases_required` to `False`, and does NOT merge the
artifact roots into `exclude_common_folders`. -/

structure TruthConfig where
  zip_root : String
  ai_index_root : String
  exclude_common_folders : List String
  exclude_common_files : List String
  slim_exclude_folders : List String
  slim_exclude_ext : List String
  slim_exclude_extra_folders : List String
  truth_phases_required : Bool
  draft_root : String
deriving Repr, DecidableEq

def TruthConfig.load (data : ConfigData) : TruthConfig :=
  { zip_root := data.zip_root.getD "_truth"
    ai_index_root := data.ai_index_root.getD "_ai_index"
    exclude_common_folders := data.exclude_common_folders.getD []
    exclude_common_files := data.exclude_common_files.getD []
    slim_exclude_folders := data.slim_exclude_folders.getD []
    slim_exclude_ext := data.slim_exclude_ext.getD []
    slim_exclude_extra_folders := data.slim_exclude_extra_folders.getD []
    truth_phases_required := data.truth_phases_required.getD false
    draft_root := data.draft_root.getD "_truth_drafts" }

/-- `confirm_draft`/`mint_truth` pass their `TruthConfig` straight into
`make_zip` (duck typing); the walk reads exactly these fields. -/
def TruthConfig.walkCfg (c : TruthConfig) : Config :=
  { zip_root := c.zip_root
    ai_index_root := c.ai_index_root
    draft_root := c.draft_root
    exclude_common_folders := c.exclude_common_folders
    exclude_common_files := c.exclude_common_files
    slim_exclude_folders := c.slim_exclude_folders
    slim_exclude_ext := c.slim_exclude_ext
    slim_exclude_extra_folders := c.slim_exclude_extra_folders
    forbidden_marker_substrings := []
    truth_phases_required := c.truth_phases_required }

/-! ## Confirm transaction (`truth_manager.confirm_draft`) -/

/-- `app/version.py`. The marker is only ever read through the
`PROJECT_NAME`/`TRUTH_VERSION` regex captures and rewritten by a regex
substitution of the version number, so it is modelled by its parsed
content; equality of `VersionDoc`s models byte-identical marker text. -/
structure VersionDoc where
  project : String
  ver : Nat
deriving Repr, DecidableEq

structure DraftFile where
  name : String
  content : String
deriving Repr, DecidableEq

/-- The file-system state the confirm transaction touches: the ledger text,
the version marker, the draft directory listing, the snapshot the walk
enumerates, and the file names present under the release-archive root. -/
structure RepoState where
  truthMd : String
  versionPy : VersionDoc
  drafts : List DraftFile
  repoFiles : List (List String)
  zipFiles : List String
deriving Repr, DecidableEq

/-- Success/failure of the external collaborators and verification phases
invoked by `confirm_draft`; the transaction observes only success or a
raised exception. -/
structure StepOracle where
  preVerifyOk : Bool
  backupOk : Bool
  updateRepoMapOk : Bool
  buildAiIndexOk : Bool
  verifyAiIndexOk : Bool
  validateFullOk : Bool
  validateSlimOk : Bool
  postVerifyOk : Bool
deriving Repr, DecidableEq

inductive ConfirmErr
  | preVerify
  | noPendingDraft
  | draftVersionMismatch (got expected : Nat)
  | backup
  | appendFailed (msg : String)
  | updateRepoMap
  | buildAiIndex
  | verifyAiIndex
  | zipFull (msg : String)
  | zipSlim (msg : String)
  | validateFull
  | validateSlim
  | postVerify
deriving Repr, DecidableEq

/-- Failures raised at or after the MUTATE step, i.e. inside the `try`
block of `confirm_draft` and so covered by its rollback handler. -/
def ConfirmErr.isPostMutate : ConfirmErr → Bool
  | .appendFailed _ | .updateRepoMap | .buildAiIndex | .verifyAiIndex
  | .zipFull _ | .zipSlim _ | .validateFull | .validateSlim | .postVerify => true
  | _ => false

def confirmFailedPostMutate : Except ConfirmErr Nat → Bool
  | .error e => e.isPostMutate
  | .ok _ => false

def fullZipName (project : String) (ver : Nat) : String :=
  project ++ "_TRUTH_V" ++ natToString ver ++ "_FULL.zip"

def slimZipName (project : String) (ver : Nat) : String :=
  project ++ "_TRUTH_V" ++ natToString ver ++ "_SLIM.zip"

/-- `zip_path.with_name(f"tmp_{zip_path.stem}{zip_path.suffix}")`. -/
def tmpZipName (name : String) : String := "tmp_" ++ name

/-- `draft_path.read_text()`. -/
def draftContent (st : RepoState) (name : String) : String :=
  ((st.drafts.find? (fun d => d.name = name)).map (fun d => d.content)).getD ""

/-- The file-system effect of one `make_zip` call on `dest`, as a function
of the walk snapshot and the zip-root listing: the stale `tmp_` file and
`dest` are unlinked first; an empty project name raises before the temp
file is opened; a duplicate archive path raises mid-write, leaving the
partially written `tmp_` file behind; on success the temp file is renamed
onto `dest`. The error carries the resulting zip-root listing. -/
def make_zip_fs (dest tmp : String) (project : String) (cfg : Config) (slim : Bool)
    (snapshot : List (List String)) (zips : List String) :
    Except (String × List String) (List String) :=
  let cleaned := zips.filter (fun n => n ≠ tmp && n ≠ dest)
  let projPfx := pyStripOn (fun c => c = '\\') (pyStripOn (fun c => c = '/') (pyStrip project))
  if projPfx = "" then .error ("project name is empty", cleaned)
  else
    match makeZipMembersGo []
        ((list_repo_files cfg slim [] snapshot).map (fun rel => projPfx :: rel)) with
    | .error m => .error (m, cleaned ++ [tmp])
    | .ok _ => .ok (cleaned ++ [dest])

/-- The `try` block of `confirm_draft` (MUTATE through POST_VERIFY); an
error carries the state at the point of failure, for the rollback handler. -/
def confirmPipeline (st : RepoState) (cfg : TruthConfig) (orc : StepOracle)
    (project : String) (newVer : Nat) (statement : String) :
    Except (ConfirmErr × RepoState) RepoState :=
  match append_truth_md_verbatim project newVer statement cfg.truth_phases_required st.truthMd with
  | .error m => .error (.appendFailed m, st)
  | .ok newTruth =>
    let st2 : RepoState :=
      { st with truthMd := newTruth, versionPy := { st.versionPy with ver := newVer } }
    if !orc.updateRepoMapOk then .error (.updateRepoMap, st2)
    else if !orc.buildAiIndexOk then .error (.buildAiIndex, st2)
    else if !orc.verifyAiIndexOk then .error (.verifyAiIndex, st2)
    else
      match make_zip_fs (fullZipName project newVer) (tmpZipName (fullZipName project newVer))
          project cfg.walkCfg false st2.repoFiles st2.zipFiles with
      | .error (m, z3) => .error (.zipFull m, { st2 with zipFiles := z3 })
      | .ok z3 =>
        let st3 : RepoState := { st2 with zipFiles := z3 }
        match make_zip_fs (slimZipName project newVer) (tmpZipName (slimZipName project newVer))
            project cfg.walkCfg true st3.repoFiles st3.zipFiles with
        | .error (m, z4) => .error (.zipSlim m, { st3 with zipFiles := z4 })
        | .ok z4 =>
          let st4 : RepoState := { st3 with zipFiles := z4 }
          if !orc.validateFullOk then .error (.validateFull, st4)
          else if !orc.validateSlimOk then .error (.validateSlim, st4)
          else if !orc.postVerifyOk then .error (.postVerify, st4)
          else .ok st4

/-- The `except` handler of `confirm_draft`: restore the ledger and marker
from the in-memory snapshot and delete the (final-named) release archives
if present. The restore writes are assumed to succeed (the
rollback-hard-fail escalation path is outside this model). -/
def confirmRollback (truthBefore : String) (versionBefore : VersionDoc)
    (project : String) (newVer : Nat) (e : ConfirmErr) (stE : RepoState) :
    Except ConfirmErr Nat × RepoState :=
  (.error e,
    { stE with
      truthMd := truthBefore
      versionPy := versionBefore
      zipFiles := stE.zipFiles.filter
        (fun n => n ≠ fullZipName project newVer && n ≠ slimZipName project newVer) })

/-- `confirm_draft`: pre-verify, bind the pending draft to version
`cur + 1`, snapshot, run the mutation pipeline, and on success delete the
consumed draft; on a pipeline failure run the rollback handler. The
pre-mutation failures (`pre-verify`, missing draft, wrong draft version,
backup) return with the state untouched, exactly as the source raises
before any mutation. -/
def confirm_draft (st : RepoState) (data : ConfigData) (orc : StepOracle) :
    Except ConfirmErr Nat × RepoState :=
  let cfg := TruthConfig.load data
  if !orc.preVerifyOk then (.error .preVerify, st)
  else
    let project := st.versionPy.project
    let newVer := st.versionPy.ver + 1
    match find_pending_draft project (st.drafts.map (fun d => d.name)) with
    | none => (.error .noPendingDraft, st)
    | some (draftVer, draftName) =>
      if draftVer ≠ newVer then (.error (.draftVersionMismatch draftVer newVer), st)
      else if !orc.backupOk then (.error .backup, st)
      else
        let statement := draftContent st draftName
        match confirmPipeline st cfg orc project newVer statement with
        | .ok stOk =>
          (.ok newVer, { stOk with drafts := stOk.drafts.filter (fun d => d.name ≠ draftName) })
        | .error (e, stE) => confirmRollback st.truthMd st.versionPy project newVer e stE

/-! ## Trailing-entry repair (`tools/repair_truth_md.py`) -/

/-- The header scan of `repair_truth_md`: 0-based indexes and versions of
all lines whose stripped text matches the header regex. -/
def headerStartsAux (i : Nat) : List String → List (Nat × Nat)
  | [] => []
  | l :: rest =>
    match parseHeaderLine (pyStrip l) with
    | some (_, v, _) => (i, v) :: headerStartsAux (i + 1) rest
    | none => headerStartsAux (i + 1) rest

def headerStarts (lines : List String) : List (Nat × Nat) := headerStartsAux 0 lines

/-- Versions of the header lines, in document order. -/
def headerVersions (lines : List String) : List Nat :=
  lines.filterMap (fun l => (parseHeaderLine (pyStrip l)).map (fun x => x.2.1))

/-- The per-entry END check of `repair_truth_md`: first entry (start index,
version, is-last flag) whose block, running to the next header or to the
end of the document, has no line stripping to `END`. -/
def scanEntries (lines : List String) : List (Nat × Nat) → Option (Nat × Nat × Bool)
  | [] => none
  | (si, v) :: rest =>
    let block :=
      match rest with
      | (sj, _) :: _ => (lines.drop si).take (sj - si)
      | [] => lines.drop si
    if block.any (fun l => pyStrip l = "END") then scanEntries lines rest
    else some (si, v, rest.isEmpty)

/-- The tail of `repair_truth_md`: write the (possibly truncated) document
back and resynchronize `TRUTH_VERSION` to the highest header version found
by re-parsing the written text (`0` when none remain). -/
def repairFinish (keptLines : List String) (truncated : Nat) :
    Except String (String × Nat × Nat) :=
  let out := pyRstripNl (joinLines keptLines) ++ "\n"
  let latest := (headerVersions (splitLines out)).foldr max 0
  .ok (out, latest, truncated)

/-- `repair_truth_md`, acting on the ledger text and version marker. The
result carries the new ledger text, the new marker value, and the function
return (truncated version, `0` when nothing was truncated); `.error` models
the `SystemExit` raised — before any write — when an entry missing `END`
is not the last one. When no header exists at all the source returns `0`
before writing anything. -/
def repair_truth_md (txt : String) (ver : Nat) : Except String (String × Nat × Nat) :=
  let lines := splitLines (normNewlines txt)
  let starts := headerStarts lines
  if starts.isEmpty then .ok (txt, ver, 0)
  else
    match scanEntries lines starts with
    | some (si, v, isLast) =>
      if !isLast then
        .error ("TRUTH.md corruption: TRUTH_V" ++ natToString v ++ " missing END but not last entry")
      else repairFinish (lines.take si) v
    | none => repairFinish lines 0

/-- The repaired (ledger text, marker) pair; on the fatal path the files
are untouched. -/
def repair_run (txt : String) (ver : Nat) : String × Nat :=
  match repair_truth_md txt ver with
  | .ok (out, nv, _) => (out, nv)
  | .error _ => (txt, ver)

/-! ## Concrete scenarios used by the witnesses and counterexamples -/

/-- Policy/snapshot on which the backup walker and the canonical enumerator
differ: an excluded folder name nested below the top level. -/
def c4Data : ConfigData := { exclude_common_folders := some ["sub_excl"] }

def c4Snap : List (List String) := [["a", "sub_excl", "f.txt"]]

/-- A policy whose slim-excluded folder set contains the project name. -/
def c8Cfg : Config :=
  { zip_root := "_truth"
    ai_index_root := "_ai_index"
    draft_root := "_truth_drafts"
    exclude_common_folders := []
    exclude_common_files := []
    slim_exclude_folders := ["P"]
    slim_exclude_ext := []
    slim_exclude_extra_folders := []
    forbidden_marker_substrings := []
    truth_phases_required := true }

def dataW : ConfigData := {}

def orcW : StepOracle :=
  { preVerifyOk := true, backupOk := true, updateRepoMapOk := true, buildAiIndexOk := true
    verifyAiIndexOk := true, validateFullOk := true, validateSlimOk := true
    postVerifyOk := true }

/-- Project `P` at version 1 with a pending, well-formed `TRUTH_V2` draft. -/
def stGoodW : RepoState :=
  { truthMd := "TRUTH - P (TRUTH_V1)\nEND\n"
    versionPy := { project := "P", ver := 1 }
    drafts := [{ name := "P_TRUTH_V2_DRAFT.txt", content := "TRUTH - P (TRUTH_V2)\nEND" }]
    repoFiles := [["app", "main.py"]]
    zipFiles := [] }

def stNoDraftW : RepoState := { stGoodW with drafts := [] }

def stWrongVerW : RepoState :=
  { stGoodW with drafts := [{ name := "P_TRUTH_V3_DRAFT.txt", content := "x" }] }

/-- Same state, but the snapshot holds `A.txt` and `a.txt`: the FULL
archive build hits the case-insensitive duplicate check mid-write. -/
def stDupW : RepoState := { stGoodW with repoFiles := [["A.txt"], ["a.txt"]] }

/-- All steps succeed except the final post-phase verification. -/
def orcPostFailW : StepOracle := { orcW with postVerifyOk := false }

/-- A policy with a slim-excluded folder and extension distinct from the
project name, used to witness the slim-contents guarantee. -/
def c8CfgW : Config :=
  { c8Cfg with
    slim_exclude_folders := ["junk"]
    slim_exclude_ext := [".png"] }

/-! # Theorems -/

example : pySuffix "a.txt" = ".txt" := by decide
example : pySuffix ".env" = "" := by decide
example : pySuffix "a.tar.gz" = ".gz" := by decide
example : pySuffix "a." = "" := by decide
example : pySuffix "png" = "" := by decide
example : splitLines "a\nb" = ["a", "b"] := by decide
example : splitLines "" = [""] := by decide
example : splitLines "a\n" = ["a", ""] := by decide
example : joinLines ["a", "b"] = "a\nb" := by decide
example : pyStrip "  x y\t" = "x y" := by decide
example : normNewlines "a\r\nb\rc" = "a\nb\nc" := by decide

example : parseHeaderLine "TRUTH - P (TRUTH_V2)" = some ("P", 2, none) := by decide
example : parseHeaderLine "TRUTH-P (TRUTH_V2)" = some ("P", 2, none) := by decide
example : parseHeaderLine "TRUTH -   (TRUTH_V3)" = some ("", 3, none) := by decide
example : parseHeaderLine "TRUTH - A (TRUTH_V1) (TRUTH_Vx)" = none := by decide
example : parseHeaderLine "TRUTH - A (TRUTH_V1)x" = none := by decide
example : parseHeaderLine "TRUTH - A B (TRUTH_V1) [CONFIRM]" = some ("A B", 1, some "CONFIRM") := by
  decide
example : parseHeaderLine "TRUTH - A(TRUTH_V5)" = none := by decide
example : parseHeaderLine "TRUTH - A (TRUTH_V(TRUTH_V3)" = none := by decide
example : parseHeaderLine "TRUTH - A (TRUTH_V1) (TRUTH_V2)" = some ("A (TRUTH_V1)", 2, none) := by
  decide
example : draftVerOf "P" "P_TRUTH_V12_DRAFT.txt" = some 12 := by decide
example : draftVerOf "A" "A_TRUTH_V1_TRUTH_V23_DRAFT.txt" = some 23 := by decide
example : draftVerOf "P" "P_TRUTH_V1x2_DRAFT.txt" = none := by decide
example : draftVerOf "P" "P_TRUTH_V_DRAFT.txt" = none := by decide
example : natToString 120 = "120" := by decide

example :
    append_truth_md_verbatim "P" 2 "TRUTH - P (TRUTH_V2)\nLOCKED PRE\nLOCKED POST\nEND\nextra"
      true "TRUTH - P (TRUTH_V1)\nEND\n" =
      .ok "TRUTH - P (TRUTH_V1)\nEND\n\nTRUTH - P (TRUTH_V2)\nLOCKED PRE\nLOCKED POST\nEND\n\n" := by
  decide

example :
    repair_truth_md "TRUTH - P (TRUTH_V1)\nEND\nTRUTH - P (TRUTH_V2)\nstuff\n" 2 =
      .ok ("TRUTH - P (TRUTH_V1)\nEND\n", 1, 2) := by decide

example :
    repair_run "TRUTH - P (TRUTH_V1)\nstuff\nTRUTH - P (TRUTH_V2)\nEND\n" 2 =
      ("TRUTH - P (TRUTH_V1)\nstuff\nTRUTH - P (TRUTH_V2)\nEND\n", 2) := by decide

/-! ## List helper lemmas -/

theorem mem_insertLe {α : Type} (le : α → α → Bool) (x a : α) (l : List α) :
    a ∈ insertLe le x l ↔ a = x ∨ a ∈ l := by
  induction l with
  | nil => simp [insertLe]
  | cons y ys ih =>
    simp only [insertLe]
    split
    · simp [List.mem_cons]
    · simp only [List.mem_cons, ih]
      tauto

theorem mem_sortLe {α : Type} (le : α → α → Bool) (a : α) (l : List α) :
    a ∈ sortLe le l ↔ a ∈ l := by
  induction l with
  | nil => simp [sortLe]
  | cons x xs ih => simp [sortLe, mem_insertLe, ih]

theorem mem_dedupFirst (a : String) (l : List String) :
    a ∈ dedupFirst l ↔ a ∈ l := by
  induction l with
  | nil => simp [dedupFirst]
  | cons x xs ih =>
    simp only [dedupFirst, List.mem_cons, List.mem_filter, ih]
    constructor
    · rintro (rfl | ⟨h, _⟩)
      · exact Or.inl rfl
      · exact Or.inr h
    · rintro (rfl | h)
      · exact Or.inl rfl
      · by_cases hx : a = x
        · exact Or.inl hx
        · exact Or.inr ⟨h, by simpa using hx⟩

theorem hasAnyPart_eq_false_iff (rel names : List String) :
    hasAnyPart rel names = false ↔ ∀ p ∈ rel, p ∉ names := by
  simp [hasAnyPart]

theorem mem_list_repo_files (cfg : Config) (slim : Bool) (allow : List String)
    (snapshot : List (List String)) (rel : List String) :
    rel ∈ list_repo_files cfg slim allow snapshot ↔
      rel ∈ snapshot ∧ should_exclude rel cfg slim allow = false := by
  simp [list_repo_files, mem_sortLe, List.mem_filter]

theorem mem_iter_repo_files_for_backup (data : ConfigData)
    (snapshot : List (List String)) (rel : List String) :
    rel ∈ iter_repo_files_for_backup data snapshot ↔
      rel ∈ snapshot ∧ backup_should_exclude rel data = false := by
  simp [iter_repo_files_for_backup, mem_sortLe, List.mem_filter]

theorem makeZipMembersGo_ok (arcs : List (List String)) :
    ∀ (seen : List String) (ms : List (List String)),
      makeZipMembersGo seen arcs = .ok ms → ms = arcs := by
  induction arcs with
  | nil => intro seen ms h; simpa [makeZipMembersGo] using h.symm
  | cons arc rest ih =>
    intro seen ms h
    simp only [makeZipMembersGo] at h
    split at h
    · exact absurd h (by simp)
    · revert h
      split
      · rename_i ms' hrec
        intro h
        cases h
        exact congrArg (arc :: ·) (ih _ _ hrec).symm ▸ rfl
      · intro h; exact absurd h (by simp)

/-! ## C2 — post-phase backup-archive validation -/

/-- C2: the post-phase backup check cannot fail on an invalid archive.
`validate_backup_zip` reports failure through its returned report and never
raises, and `verify_last_before_confirm_backup_if_present` discards that
report, failing only on a malformed marker. So for EVERY zip lookup — in
particular one where the referenced archive is missing or fails the
nesting/manifest/hash checks — a syntactically valid marker makes the check
succeed; meanwhile `validate_backup_zip` itself reports `ok = false` for a
missing archive. This contradicts the claim (and the source docstring
"If marker is present but invalid: FAIL"). -/
theorem backup_check_ignores_validation_result
    (zipOnDisk : String → Option ZipData) (sha : String → String)
    (m : BackupMarker) (h1 : m.validJson = true)
    (h2 : pyStrip (m.backupZip.getD "") ≠ "") :
    verify_last_before_confirm_backup_if_present (some m) zipOnDisk sha = .ok () ∧
      (validate_backup_zip none sha).ok = false := by
  constructor
  · simp only [verify_last_before_confirm_backup_if_present, h1]
    simp [h2]
  · rfl

/-- C2 witness: a marker referencing `B.zip` while no such archive exists on
disk — post-phase backup verification succeeds anyway. -/
theorem backup_check_ignores_validation_result_witness :
    verify_last_before_confirm_backup_if_present
        (some { validJson := true, backupZip := some "B.zip" })
        (fun _ => none) (fun _ => "") = .ok () ∧
      (validate_backup_zip none (fun _ => "")).ok = false :=
  backup_check_ignores_validation_result (fun _ => none) (fun _ => "")
    { validJson := true, backupZip := some "B.zip" } rfl (by decide)

/-! ## C3 — post-phase slim-contents check -/

/-- C3: the slim-contents check is vacuous. Because the source reads the
forbidden folder/extension sets with `getattr` on a JSON `dict` (which
always yields the default), `verify_slim_contents` succeeds on EVERY
archive member list under EVERY configuration — including archives that do
contain members under configured excluded folders or with configured
excluded extensions. This contradicts the claim that such members make
post-phase verification fail. -/
theorem slim_contents_check_vacuous (cfgData : ConfigData) (names : List String) :
    verify_slim_contents cfgData names = .ok () := by
  have h : ∀ name ∈ names,
      (fun name =>
        let parts := ((splitOnChar '/' (replaceChar '\\' '/' name).data).map String.mk).filter
          (fun p => p ≠ "")
        if parts = [] then none
        else if parts.dropLast.any (fun token => ([] : List String).contains token) then
          some (name ++ " (folder)")
        else
          let suffix := pyLower (pySuffix (relName parts))
          if suffix ≠ "" && ([] : List String).contains suffix then some (name ++ " (ext)")
          else none) name = (none : Option String) := by
    intro name _
    simp
  simp only [verify_slim_contents, List.filterMap_eq_nil_iff.mpr h]
  rfl

/-- C3 evaluation at a concrete failing input: the configuration excludes
`_logs` and the slim archive contains a member under `P/_logs/`, yet the
check succeeds. -/
theorem slim_contents_check_vacuous_eval :
    verify_slim_contents { exclude_common_folders := some ["_logs"] }
      ["P/_logs/x.txt", "P/app/main.py"] = .ok () := by decide

/-! ## C4 — backup walker vs canonical enumerator -/

/-- C4 counterexample: the claim as stated is false. For the policy
excluding folder `sub_excl` and a snapshot holding `a/sub_excl/f.txt`, the
canonical enumerator (non-slim, no re-allowed roots) excludes the file —
folder tokens match anywhere in the path — but the backup walker archives
it, because `repo_backup._should_exclude` compares excluded folder names
only against `parts[0]`. -/
theorem backup_walk_differs_counterexample :
    iter_repo_files_for_backup c4Data c4Snap = [["a", "sub_excl", "f.txt"]] ∧
      list_repo_files (Config.load c4Data) false [] c4Snap = [] := by decide

/-- C4 (amended): the backup builder does not consume the canonical
enumerator's listing. Its archived set is exactly the snapshot filtered by
its own predicate `backup_should_exclude`, which matches excluded folder
names only at the first path component; consequently any snapshot file that
the backup predicate keeps but the canonical enumerator's policy excludes
(e.g. one lying under a nested excluded folder) is archived by the backup
builder while absent from the enumerator's non-slim listing. -/
theorem backup_walk_characterization (data : ConfigData)
    (snapshot : List (List String)) (rel : List String) :
    (rel ∈ iter_repo_files_for_backup data snapshot ↔
      rel ∈ snapshot ∧ backup_should_exclude rel data = false) ∧
    (rel ∈ snapshot → backup_should_exclude rel data = false →
      should_exclude rel (Config.load data) false [] = true →
      rel ∈ iter_repo_files_for_backup data snapshot ∧
        rel ∉ list_repo_files (Config.load data) false [] snapshot) := by
  refine ⟨mem_iter_repo_files_for_backup data snapshot rel, ?_⟩
  intro hmem hkeep hexcl
  refine ⟨(mem_iter_repo_files_for_backup data snapshot rel).2 ⟨hmem, hkeep⟩, ?_⟩
  intro hcontra
  have := (mem_list_repo_files _ _ _ _ _).1 hcontra
  rw [this.2] at hexcl
  exact Bool.false_ne_true hexcl

/-- C4 witness: on the concrete divergent policy/snapshot, the nested
`a/sub_excl/f.txt` is archived by the backup walker and absent from the
canonical enumerator's listing. -/
theorem backup_walk_characterization_witness :
    ["a", "sub_excl", "f.txt"] ∈ iter_repo_files_for_backup c4Data c4Snap ∧
      ["a", "sub_excl", "f.txt"] ∉ list_repo_files (Config.load c4Data) false [] c4Snap :=
  (backup_walk_characterization c4Data c4Snap _).2 (by decide) (by decide) (by decide)

/-! ## C9 — artifact roots never re-enter the enumerator -/

/-- C9: for every loaded policy, the configured artifact roots (release
archive root, derived-index root, draft root) are merged into the excluded
folder set, so no path produced by the canonical enumerator (with no
re-allowed top-level roots) has a component equal to any artifact root.
The hypothesis `"" ∉ rel` records that `pathlib` path components are never
empty. -/
theorem artifact_roots_absent_from_enumerator (data : ConfigData)
    (snapshot : List (List String)) (slim : Bool) (rel : List String)
    (hwf : "" ∉ rel)
    (hmem : rel ∈ list_repo_files (Config.load data) slim [] snapshot) :
    (Config.load data).zip_root ∉ rel ∧ (Config.load data).ai_index_root ∉ rel ∧
      (Config.load data).draft_root ∉ rel := by
  have hex : should_exclude rel (Config.load data) slim [] = false :=
    ((mem_list_repo_files _ _ _ _ _).1 hmem).2
  have hparts : ∀ p ∈ rel, p ∉ (Config.load data).exclude_common_folders := by
    have hfold : hasAnyPart rel (Config.load data).exclude_common_folders = false := by
      simp only [should_exclude, Bool.or_eq_false_iff] at hex
      have h1 := hex.1.1.2
      revert h1
      match rel with
      | [] => intro h1; exact h1
      | r0 :: rest => intro h1; simpa using h1
    exact (hasAnyPart_eq_false_iff _ _).1 hfold
  have hroot : ∀ r, r ∈ [(Config.load data).zip_root, (Config.load data).ai_index_root,
      (Config.load data).draft_root] → r ∉ rel := by
    intro r hr hmemrel
    have hne : r ≠ "" := fun h => hwf (h ▸ hmemrel)
    have : r ∈ (Config.load data).exclude_common_folders := by
      simp only [Config.load, mem_dedupFirst, List.mem_append, List.mem_filter]
      right
      refine ⟨?_, by simpa using hne⟩
      simpa [Config.load] using hr
    exact (hparts r hmemrel) this
  exact ⟨hroot _ (by simp), hroot _ (by simp), hroot _ (by simp)⟩

theorem make_zip_fs_ok (dest tmp project : String) (cfg : Config) (slim : Bool)
    (snapshot : List (List String)) (zips : List String) (ms : List (List String))
    (h : make_zip_members project cfg slim snapshot = .ok ms) :
    make_zip_fs dest tmp project cfg slim snapshot zips =
      .ok (zips.filter (fun n => n ≠ tmp && n ≠ dest) ++ [dest]) := by
  simp only [make_zip_members] at h
  simp only [make_zip_fs]
  split at h
  · exact Except.noConfusion h
  · rename_i hpfx
    rw [if_neg hpfx]
    split
    · rename_i m hgo
      rw [h] at hgo
      exact Except.noConfusion hgo
    · rfl

/-! ## C6 — confirm binds to the draft at exactly version N + 1 -/

/-- C6: at current version `N` (read from the version marker), confirm with
no pending draft fails with the state untouched; confirm whose
highest-versioned pending draft is not at `N + 1` fails with the state
untouched; confirm with a pending draft at exactly `N + 1` whose content
appends cleanly (and whose downstream steps succeed) returns `N + 1`,
advances the version marker by exactly 1, and deletes the consumed draft
file. -/
theorem confirm_draft_binding (st : RepoState) (data : ConfigData) (orc : StepOracle)
    (hpre : orc.preVerifyOk = true) :
    (find_pending_draft st.versionPy.project (st.drafts.map (fun d => d.name)) = none →
      confirm_draft st data orc = (.error .noPendingDraft, st)) ∧
    (∀ v name,
      find_pending_draft st.versionPy.project (st.drafts.map (fun d => d.name)) =
        some (v, name) →
      v ≠ st.versionPy.ver + 1 →
      confirm_draft st data orc =
        (.error (.draftVersionMismatch v (st.versionPy.ver + 1)), st)) ∧
    (∀ name,
      find_pending_draft st.versionPy.project (st.drafts.map (fun d => d.name)) =
        some (st.versionPy.ver + 1, name) →
      orc.backupOk = true → orc.updateRepoMapOk = true → orc.buildAiIndexOk = true →
      orc.verifyAiIndexOk = true → orc.validateFullOk = true → orc.validateSlimOk = true →
      orc.postVerifyOk = true →
      (append_truth_md_verbatim st.versionPy.project (st.versionPy.ver + 1)
        (draftContent st name) (TruthConfig.load data).truth_phases_required
        st.truthMd).isOk = true →
      (∃ msF, make_zip_members st.versionPy.project (TruthConfig.load data).walkCfg false
        st.repoFiles = .ok msF) →
      (∃ msS, make_zip_members st.versionPy.project (TruthConfig.load data).walkCfg true
        st.repoFiles = .ok msS) →
      (confirm_draft st data orc).1 = .ok (st.versionPy.ver + 1) ∧
        (confirm_draft st data orc).2.versionPy.ver = st.versionPy.ver + 1 ∧
        (confirm_draft st data orc).2.versionPy.project = st.versionPy.project ∧
        ∀ d ∈ (confirm_draft st data orc).2.drafts, d.name ≠ name) := by
  refine ⟨?_, ?_, ?_⟩
  · intro hnone
    simp [confirm_draft, hpre, hnone]
  · intro v name hpend hv
    simp [confirm_draft, hpre, hpend, hv]
  · intro name hpend hbk hurm hbai hvai hvf hvs hpv happ hzF hzS
    obtain ⟨msF, hF⟩ := hzF
    obtain ⟨msS, hS⟩ := hzS
    obtain ⟨out, hout⟩ : ∃ out,
        append_truth_md_verbatim st.versionPy.project (st.versionPy.ver + 1)
          (draftContent st name) (TruthConfig.load data).truth_phases_required
          st.truthMd = .ok out := by
      revert happ
      cases append_truth_md_verbatim st.versionPy.project (st.versionPy.ver + 1)
          (draftContent st name) (TruthConfig.load data).truth_phases_required
          st.truthMd with
      | ok o => exact fun _ => ⟨o, rfl⟩
      | error e => intro happ; exact absurd happ (by simp [Except.isOk, Except.toBool])
    have hfs1 := make_zip_fs_ok (fullZipName st.versionPy.project (st.versionPy.ver + 1))
        (tmpZipName (fullZipName st.versionPy.project (st.versionPy.ver + 1)))
        st.versionPy.project (TruthConfig.load data).walkCfg false st.repoFiles
        st.zipFiles msF hF
    have hfs2 := make_zip_fs_ok (slimZipName st.versionPy.project (st.versionPy.ver + 1))
        (tmpZipName (slimZipName st.versionPy.project (st.versionPy.ver + 1)))
        st.versionPy.project (TruthConfig.load data).walkCfg true st.repoFiles
        (st.zipFiles.filter (fun n =>
            n ≠ tmpZipName (fullZipName st.versionPy.project (st.versionPy.ver + 1))
            && n ≠ fullZipName st.versionPy.project (st.versionPy.ver + 1))
          ++ [fullZipName st.versionPy.project (st.versionPy.ver + 1)]) msS hS
    simp only [confirm_draft, hpre, Bool.not_true, Bool.false_eq_true, if_false, hpend,
      confirmPipeline, hout, hbk, hurm, hbai, hvai, hvf, hvs, hpv, hfs1, hfs2,
      ne_eq, not_true_eq_false, if_neg, reduceIte]
    refine ⟨trivial, trivial, trivial, ?_⟩
    intro d hd
    have := List.mem_filter.1 hd
    simpa using this.2

/-! ## C5 — append validity -/

/-- C5: appending to a ledger at version `N` (so `append_truth_md_verbatim`
is invoked with `new_ver = N + 1`) a well-formed block whose first
header-matching line carries project `Q` and version `V`: with the correct
project and `V = N + 1` the append succeeds; with a wrong project, or with
`V = N` or `V = N + 2`, it raises (the project/version-mismatch
`RuntimeError`s), and — the error being raised before any write — the
ledger text is unchanged. -/
theorem ledger_append_validity (project : String) (N : Nat) (blockText curText : String)
    (pr : Bool) (i : Nat) (Q : String) (V : Nat)
    (hhdr : findFirstHeader (appendBlockLines blockText) = some (i, Q, V)) :
    (Q = project → V = N + 1 → hasMarkerLine "END" (appendBlockLines blockText) = true →
      phasedBlockOk pr (appendBlockLines blockText) = true →
      (append_truth_md_verbatim project (N + 1) blockText pr curText).isOk = true) ∧
    (Q ≠ project →
      (∃ msg, append_truth_md_verbatim project (N + 1) blockText pr curText = .error msg) ∧
        append_state project (N + 1) blockText pr curText = curText) ∧
    ((V = N ∨ V = N + 2) → Q = project →
      (∃ msg, append_truth_md_verbatim project (N + 1) blockText pr curText = .error msg) ∧
        append_state project (N + 1) blockText pr curText = curText) := by
  refine ⟨?_, ?_, ?_⟩
  · intro hq hv hend hph
    simp only [append_truth_md_verbatim, hhdr, hq, hv, hend]
    cases pr with
    | false => simp [Except.isOk, Except.toBool]
    | true =>
      simp only [phasedBlockOk, Bool.not_true, Bool.false_or, Bool.and_eq_true,
        Bool.not_eq_true'] at hph
      simp [hph.1.1, hph.1.2, hph.2, Except.isOk, Except.toBool]
  · intro hq
    have herr : ∃ msg,
        append_truth_md_verbatim project (N + 1) blockText pr curText = .error msg := by
      simp only [append_truth_md_verbatim, hhdr]
      simp [hq]
    refine ⟨herr, ?_⟩
    obtain ⟨msg, hmsg⟩ := herr
    simp [append_state, hmsg]
  · intro hv hq
    have hne : V ≠ N + 1 := by omega
    have herr : ∃ msg,
        append_truth_md_verbatim project (N + 1) blockText pr curText = .error msg := by
      simp only [append_truth_md_verbatim, hhdr, hq]
      simp [hne]
    refine ⟨herr, ?_⟩
    obtain ⟨msg, hmsg⟩ := herr
    simp [append_state, hmsg]

/-- C5 witness: at version 1, a block headed `TRUTH_V2` with the right
project appends; a wrong project or a `TRUTH_V3` header fails with the
ledger text unchanged. -/
theorem ledger_append_validity_witness :
    (append_truth_md_verbatim "P" 2 "TRUTH - P (TRUTH_V2)\nEND" false "base\n").isOk = true ∧
    ((∃ msg, append_truth_md_verbatim "P" 2 "TRUTH - Q (TRUTH_V2)\nEND" false "base\n" =
        .error msg) ∧
      append_state "P" 2 "TRUTH - Q (TRUTH_V2)\nEND" false "base\n" = "base\n") ∧
    ((∃ msg, append_truth_md_verbatim "P" 2 "TRUTH - P (TRUTH_V3)\nEND" false "base\n" =
        .error msg) ∧
      append_state "P" 2 "TRUTH - P (TRUTH_V3)\nEND" false "base\n" = "base\n") :=
  ⟨(ledger_append_validity "P" 1 "TRUTH - P (TRUTH_V2)\nEND" "base\n" false 0 "P" 2
      (by decide)).1 rfl rfl (by decide) (by decide),
   (ledger_append_validity "P" 1 "TRUTH - Q (TRUTH_V2)\nEND" "base\n" false 0 "Q" 2
      (by decide)).2.1 (by decide),
   (ledger_append_validity "P" 1 "TRUTH - P (TRUTH_V3)\nEND" "base\n" false 0 "P" 3
      (by decide)).2.2 (Or.inr rfl) rfl⟩

/-- C9 witness: with the default policy, `app/main.py` is enumerated and
contains none of `_truth`, `_ai_index`, `_truth_drafts`. -/
theorem artifact_roots_absent_from_enumerator_witness :
    (Config.load {}).zip_root ∉ ["app", "main.py"] ∧
      (Config.load {}).ai_index_root ∉ ["app", "main.py"] ∧
      (Config.load {}).draft_root ∉ ["app", "main.py"] :=
  artifact_roots_absent_from_enumerator {} [["app", "main.py"]] false
    ["app", "main.py"] (by decide) (by decide)

/-! ## C8 — slim-archive contents -/

/-- C8 counterexample: the claim as stated is false when the project name
itself is a configured slim-excluded folder token. With policy excluding
folder `P` and project `P`, the build succeeds and every member's path
contains the excluded component `P` (the nesting prefix). -/
theorem slim_archive_counterexample :
    make_zip_members "P" c8Cfg true [["a.txt"]] = .ok [["P", "a.txt"]] ∧
      "P" ∈ (["P", "a.txt"] : List String) ∧ "P" ∈ c8Cfg.slim_exclude_folders := by decide

/-- C8 (amended): every member of a successfully built slim archive is the
project prefix followed by a repo-relative path none of whose components is
a configured slim-excluded, slim-extra-excluded or common-excluded folder
name, and whose file name's suffix is not a configured slim-excluded
extension (case-insensitively). (The leading project prefix itself is the
one component not subject to the policy.) -/
theorem slim_archive_members_clean (project : String) (cfg : Config)
    (snapshot : List (List String)) (ms : List (List String))
    (h : make_zip_members project cfg true snapshot = .ok ms)
    (m : List String) (hm : m ∈ ms) :
    ∃ pfx rel, m = pfx :: rel ∧
      (∀ part ∈ rel, part ∉ cfg.slim_exclude_folders ∧
        part ∉ cfg.slim_exclude_extra_folders ∧ part ∉ cfg.exclude_common_folders) ∧
      pyLower (pySuffix (relName rel)) ∉ cfg.slim_exclude_ext.map pyLower := by
  simp only [make_zip_members] at h
  split at h
  · exact Except.noConfusion h
  · have hms := makeZipMembersGo_ok _ _ _ h
    subst hms
    obtain ⟨rel, hrelmem, rfl⟩ := List.mem_map.1 hm
    have hrel := (mem_list_repo_files _ _ _ _ _).1 hrelmem
    have hex := hrel.2
    simp only [should_exclude, Bool.or_eq_false_iff, Bool.true_and] at hex
    have hslimF : hasAnyPart rel
        (cfg.slim_exclude_folders ++ cfg.slim_exclude_extra_folders) = false := hex.2.1
    have hextC : (cfg.slim_exclude_ext.map pyLower).contains
        (pyLower (pySuffix (relName rel))) = false := hex.2.2
    refine ⟨_, rel, rfl, ?_, ?_⟩
    · intro part hpart
      have hcommon : part ∉ cfg.exclude_common_folders := by
        have h1 := hex.1.1.2
        have hfold : hasAnyPart rel cfg.exclude_common_folders = false := by
          revert h1
          match rel with
          | [] => intro h1; exact h1
          | r0 :: rest => intro h1; simpa using h1
        exact (hasAnyPart_eq_false_iff _ _).1 hfold part hpart
      have := (hasAnyPart_eq_false_iff _ _).1 hslimF part hpart
      simp only [List.mem_append] at this
      push_neg at this
      exact ⟨this.1, this.2, hcommon⟩
    · simpa using hextC

/-- C8 witness: a slim build under a policy excluding folder `junk` and
extension `.png`; the built member's relative part avoids both. -/
theorem slim_archive_members_clean_witness :
    ∃ pfx rel, (["Q", "app", "m.py"] : List String) = pfx :: rel ∧
      (∀ part ∈ rel, part ∉ c8CfgW.slim_exclude_folders ∧
        part ∉ c8CfgW.slim_exclude_extra_folders ∧
        part ∉ c8CfgW.exclude_common_folders) ∧
      pyLower (pySuffix (relName rel)) ∉ c8CfgW.slim_exclude_ext.map pyLower :=
  slim_archive_members_clean "Q" c8CfgW
    [["app", "m.py"]] [["Q", "app", "m.py"]] (by decide) ["Q", "app", "m.py"] (by decide)

/-- C6 witness: at version 1, confirm fails with no draft, fails with a
pending `TRUTH_V3` draft, and succeeds with a pending `TRUTH_V2` draft,
advancing the marker to 2 and deleting the draft. -/
theorem confirm_draft_binding_witness :
    confirm_draft stNoDraftW dataW orcW = (.error .noPendingDraft, stNoDraftW) ∧
    confirm_draft stWrongVerW dataW orcW =
      (.error (.draftVersionMismatch 3 2), stWrongVerW) ∧
    ((confirm_draft stGoodW dataW orcW).1 = .ok 2 ∧
      (confirm_draft stGoodW dataW orcW).2.versionPy.ver = 2 ∧
      (confirm_draft stGoodW dataW orcW).2.versionPy.project = "P" ∧
      ∀ d ∈ (confirm_draft stGoodW dataW orcW).2.drafts,
        d.name ≠ "P_TRUTH_V2_DRAFT.txt") := by
  refine ⟨(confirm_draft_binding stNoDraftW dataW orcW rfl).1 (by decide), ?_, ?_⟩
  · exact (confirm_draft_binding stWrongVerW dataW orcW rfl).2.1 3 "P_TRUTH_V3_DRAFT.txt"
      (by decide) (by decide)
  · exact (confirm_draft_binding stGoodW dataW orcW rfl).2.2 "P_TRUTH_V2_DRAFT.txt"
      (by decide) rfl rfl rfl rfl rfl rfl rfl (by decide)
      ⟨[["P", "app", "main.py"]], by decide⟩ ⟨[["P", "app", "main.py"]], by decide⟩

/-! ## Split/join roundtrip lemmas (for C7 and C10) -/

theorem splitOnChar_ne_nil (c : Char) (l : List Char) : splitOnChar c l ≠ [] := by
  induction l with
  | nil => simp [splitOnChar]
  | cons x xs ih =>
    simp only [splitOnChar]
    cases h : splitOnChar c xs with
    | nil => exact absurd h ih
    | cons a b =>
      dsimp only
      split <;> simp

theorem not_mem_splitOnChar (c : Char) (l : List Char) :
    ∀ p ∈ splitOnChar c l, c ∉ p := by
  induction l with
  | nil =>
    intro p hp
    simp only [splitOnChar, List.mem_singleton] at hp
    subst hp
    simp
  | cons x xs ih =>
    intro p hp
    simp only [splitOnChar] at hp
    cases h : splitOnChar c xs with
    | nil => exact absurd h (splitOnChar_ne_nil c xs)
    | cons a b =>
      rw [h] at hp
      dsimp only at hp
      by_cases hx : x = c
      · rw [if_pos hx] at hp
        rcases List.mem_cons.1 hp with rfl | hp2
        · simp
        · exact ih p (h ▸ hp2)
      · rw [if_neg hx] at hp
        rcases List.mem_cons.1 hp with rfl | hp2
        · intro hc
          rcases List.mem_cons.1 hc with rfl | hc2
          · exact hx rfl
          · exact (ih a (h ▸ List.mem_cons_self a b)) hc2
        · exact ih p (h ▸ List.mem_cons_of_mem a hp2)

theorem splitOnChar_of_not_mem (c : Char) (l : List Char) (h : c ∉ l) :
    splitOnChar c l = [l] := by
  induction l with
  | nil => rfl
  | cons x xs ih =>
    have hx : ¬x = c := fun e => h (e ▸ List.mem_cons_self x xs)
    have hxs : c ∉ xs := fun e => h (List.mem_cons_of_mem x e)
    simp only [splitOnChar, ih hxs]
    simp [hx]

theorem splitOnChar_append_cons (c : Char) (l s : List Char) (h : c ∉ l) :
    splitOnChar c (l ++ c :: s) = l :: splitOnChar c s := by
  induction l with
  | nil =>
    simp only [List.nil_append, splitOnChar]
    cases hs : splitOnChar c s with
    | nil => exact absurd hs (splitOnChar_ne_nil c s)
    | cons a b => simp
  | cons x xs ih =>
    have hx : ¬x = c := fun e => h (e ▸ List.mem_cons_self x xs)
    have hxs : c ∉ xs := fun e => h (List.mem_cons_of_mem x e)
    show splitOnChar c (x :: (xs ++ c :: s)) = (x :: xs) :: splitOnChar c s
    simp only [splitOnChar, ih hxs]
    simp [hx]

theorem splitOnChar_append_sep (c : Char) (l : List Char) :
    splitOnChar c (l ++ [c]) = splitOnChar c l ++ [[]] := by
  induction l with
  | nil => simp [splitOnChar]
  | cons x xs ih =>
    show splitOnChar c (x :: (xs ++ [c])) = splitOnChar c (x :: xs) ++ [[]]
    simp only [splitOnChar, ih]
    cases hs : splitOnChar c xs with
    | nil => exact absurd hs (splitOnChar_ne_nil c xs)
    | cons a b =>
      simp only [List.cons_append]
      split <;> simp

theorem joinChar_append_single (c : Char) (l : List (List Char)) (x : List Char)
    (hl : l ≠ []) : joinChar c (l ++ [x]) = joinChar c l ++ c :: x := by
  induction l with
  | nil => exact absurd rfl hl
  | cons y ys ih =>
    cases ys with
    | nil => simp [joinChar]
    | cons z zs =>
      have hz := ih (by simp)
      rw [List.cons_append] at hz
      show y ++ c :: joinChar c (z :: (zs ++ [x])) =
        (y ++ c :: joinChar c (z :: zs)) ++ c :: x
      rw [hz]
      simp [List.append_assoc]

theorem splitOnChar_joinChar (c : Char) (ll : List (List Char))
    (h : ∀ x ∈ ll, c ∉ x) (hne : ll ≠ []) :
    splitOnChar c (joinChar c ll) = ll := by
  induction ll with
  | nil => exact absurd rfl hne
  | cons x xs ih =>
    cases xs with
    | nil => exact splitOnChar_of_not_mem c x (h x (by simp))
    | cons y ys =>
      have hx : c ∉ x := h x (by simp)
      show splitOnChar c (x ++ c :: joinChar c (y :: ys)) = x :: y :: ys
      rw [splitOnChar_append_cons c x _ hx]
      congr 1
      exact ih (fun z hz => h z (List.mem_cons_of_mem x hz)) (by simp)

theorem string_mk_data (s : String) : String.mk s.data = s := rfl

theorem map_mk_data (l : List String) : (l.map String.data).map String.mk = l := by
  induction l with
  | nil => rfl
  | cons x xs ih => simp [string_mk_data, ih]

theorem splitLines_no_newline (s : String) : ∀ x ∈ splitLines s, '\n' ∉ x.data := by
  intro x hx
  simp only [splitLines, List.mem_map] at hx
  obtain ⟨p, hp, rfl⟩ := hx
  exact not_mem_splitOnChar '\n' s.data p hp

theorem dropTrailingWhile_append_sat (p : Char → Bool) (l : List Char) (x : Char)
    (hx : p x = true) : dropTrailingWhile p (l ++ [x]) = dropTrailingWhile p l := by
  simp [dropTrailingWhile, List.dropWhile_cons, hx]

theorem dropTrailingWhile_eq_self (p : Char → Bool) (l : List Char)
    (h : ∀ x, l.getLast? = some x → p x = false) :
    dropTrailingWhile p l = l := by
  unfold dropTrailingWhile
  cases hl : l.reverse with
  | nil =>
    have : l = [] := by simpa using congrArg List.reverse hl
    simp [this]
  | cons a as =>
    have hlast : l.getLast? = some a := by
      rw [← List.head?_reverse, hl]
      rfl
    rw [List.dropWhile_cons_of_neg (by simp [h a hlast])]
    rw [← hl, List.reverse_reverse]

/-- `headerVersions` of the written-back text equals `headerVersions` of
the kept lines: rendering lines to text with a single trailing newline and
re-splitting only adds/removes header-free empty lines. -/
theorem headerVersions_roundtrip (kept : List String)
    (h : ∀ x ∈ kept, '\n' ∉ x.data) :
    headerVersions (splitLines (pyRstripNl (joinLines kept) ++ "\n")) =
      headerVersions kept := by
  induction kept using List.reverseRecOn with
  | nil => decide
  | append_singleton l x ih =>
    by_cases hx : x = ""
    · subst hx
      rcases eq_or_ne l [] with rfl | hl
      · decide
      · have hld : l.map String.data ≠ [] := by simpa using hl
        have hj : (joinLines (l ++ [""])).data = (joinLines l).data ++ ['\n'] := by
          simp only [joinLines, List.map_append, List.map_cons, List.map_nil]
          rw [joinChar_append_single '\n' (l.map String.data) [] hld]
        have hrs : pyRstripNl (joinLines (l ++ [""])) = pyRstripNl (joinLines l) := by
          simp only [pyRstripNl, hj]
          rw [dropTrailingWhile_append_sat _ _ _ (by simp)]
        have hhv : headerVersions (l ++ [""]) = headerVersions l := by
          simp only [headerVersions, List.filterMap_append]
          have hnone : parseHeaderLine (pyStrip "") = none := by decide
          simp [hnone]
        rw [hrs, ih (fun y hy => h y (List.mem_append_left _ hy)), hhv]
    · have hxd : x.data ≠ [] := by
        intro e
        apply hx
        have h2 : String.mk x.data = String.mk [] := by rw [e]
        rw [string_mk_data] at h2
        exact h2
      have hxnl : '\n' ∉ x.data := h x (List.mem_append_right _ (by simp))
      obtain ⟨d, ds, hxe⟩ : ∃ d ds, x.data = d :: ds := by
        cases hxq : x.data with
        | nil => exact absurd hxq hxd
        | cons d ds => exact ⟨d, ds, rfl⟩
      obtain ⟨ch, hch⟩ : ∃ ch, x.data.getLast? = some ch := by
        cases hxl : x.data.getLast? with
        | none => exact absurd (List.getLast?_eq_none_iff.1 hxl) hxd
        | some c0 => exact ⟨c0, rfl⟩
      have hchnl : ¬ch = '\n' := by
        intro e
        exact hxnl (e ▸ List.mem_of_getLast?_eq_some hch)
      have hJlast : (joinLines (l ++ [x])).data.getLast? = some ch := by
        rcases eq_or_ne l [] with rfl | hl
        · simpa [joinLines, joinChar] using hch
        · have hld : l.map String.data ≠ [] := by simpa using hl
          show (joinChar '\n' ((l ++ [x]).map String.data)).getLast? = some ch
          rw [List.map_append, List.map_cons, List.map_nil,
            joinChar_append_single '\n' (l.map String.data) x.data hld,
            List.getLast?_append, hxe, List.getLast?_cons_cons, ← hxe, hch]
          rfl
      have hrs : pyRstripNl (joinLines (l ++ [x])) = joinLines (l ++ [x]) := by
        show String.mk (dropTrailingWhile (fun c => c = '\n')
            (joinLines (l ++ [x])).data) = joinLines (l ++ [x])
        rw [dropTrailingWhile_eq_self]
        intro y hy
        rw [hJlast] at hy
        cases hy
        simp [hchnl]
      rw [hrs]
      have hsplit : splitLines (joinLines (l ++ [x]) ++ "\n") = (l ++ [x]) ++ [""] := by
        show ((splitOnChar '\n' (joinLines (l ++ [x]) ++ "\n").data).map String.mk) =
          (l ++ [x]) ++ [""]
        have hdata : (joinLines (l ++ [x]) ++ "\n").data =
            joinChar '\n' ((l ++ [x]).map String.data) ++ ['\n'] := rfl
        rw [hdata, splitOnChar_append_sep,
          splitOnChar_joinChar '\n' ((l ++ [x]).map String.data)
            (by
              intro y hy
              obtain ⟨z, hz, rfl⟩ := List.mem_map.1 hy
              exact h z hz)
            (by simp)]
        rw [List.map_append]
        congr 1
        exact map_mk_data (l ++ [x])
      rw [hsplit]
      have hhv2 : headerVersions ((l ++ [x]) ++ [""]) = headerVersions (l ++ [x]) := by
        simp only [headerVersions, List.filterMap_append]
        have hnone : parseHeaderLine (pyStrip "") = none := by decide
        simp [hnone]
      exact hhv2

/-! ## C7 — trailing-entry repair -/

theorem scanEntries_isEmpty_false (lines : List String) (r : Nat × Nat × Bool)
    (hr : scanEntries lines (headerStarts lines) = some r) :
    (headerStarts lines).isEmpty = false := by
  cases hSt : headerStarts lines with
  | nil =>
    rw [hSt] at hr
    exact Option.noConfusion hr
  | cons a b => rfl

/-- C7: the repair operation truncates an entry missing its END terminator
only when it is the last entry. When the scan finds an END-less entry that
is followed by another entry header, repair exits fatally before any write,
leaving ledger text and version marker untouched; when the END-less entry
is the last one, repair truncates the document at that entry's header line,
reports the truncated version, and resynchronizes the version marker to the
highest version among the remaining (kept) header lines. -/
theorem repair_truncates_only_trailing (txt : String) (ver : Nat) :
    (∀ si v, scanEntries (splitLines (normNewlines txt))
        (headerStarts (splitLines (normNewlines txt))) = some (si, v, false) →
      (∃ msg, repair_truth_md txt ver = .error msg) ∧
        repair_run txt ver = (txt, ver)) ∧
    (∀ si v, scanEntries (splitLines (normNewlines txt))
        (headerStarts (splitLines (normNewlines txt))) = some (si, v, true) →
      repair_truth_md txt ver =
        .ok (pyRstripNl (joinLines ((splitLines (normNewlines txt)).take si)) ++ "\n",
          (headerVersions ((splitLines (normNewlines txt)).take si)).foldr max 0, v)) := by
  constructor
  · intro si v hscan
    have hni := scanEntries_isEmpty_false _ _ hscan
    have herr : repair_truth_md txt ver =
        .error ("TRUTH.md corruption: TRUTH_V" ++ natToString v
          ++ " missing END but not last entry") := by
      simp [repair_truth_md, hni, hscan]
    exact ⟨⟨_, herr⟩, by simp [repair_run, herr]⟩
  · intro si v hscan
    have hni := scanEntries_isEmpty_false _ _ hscan
    have hfin : repair_truth_md txt ver =
        repairFinish ((splitLines (normNewlines txt)).take si) v := by
      simp [repair_truth_md, hni, hscan]
    rw [hfin]
    have hnl : ∀ x ∈ (splitLines (normNewlines txt)).take si, '\n' ∉ x.data :=
      fun x hx => splitLines_no_newline _ x (List.mem_of_mem_take hx)
    simp only [repairFinish]
    rw [headerVersions_roundtrip _ hnl]

/-- C7 witness: a document whose FIRST entry misses END fails fatally with
nothing modified; a document whose LAST entry misses END is truncated at
that entry with the marker resynchronized to the remaining maximum. -/
theorem repair_truncates_only_trailing_witness :
    ((∃ msg, repair_truth_md "TRUTH - P (TRUTH_V1)\nstuff\nTRUTH - P (TRUTH_V2)\nEND\n" 2 =
        .error msg) ∧
      repair_run "TRUTH - P (TRUTH_V1)\nstuff\nTRUTH - P (TRUTH_V2)\nEND\n" 2 =
        ("TRUTH - P (TRUTH_V1)\nstuff\nTRUTH - P (TRUTH_V2)\nEND\n", 2)) ∧
    repair_truth_md "TRUTH - P (TRUTH_V1)\nEND\nTRUTH - P (TRUTH_V2)\nstuff\n" 2 =
      .ok (pyRstripNl (joinLines ((splitLines (normNewlines
            "TRUTH - P (TRUTH_V1)\nEND\nTRUTH - P (TRUTH_V2)\nstuff\n")).take 2)) ++ "\n",
        (headerVersions ((splitLines (normNewlines
            "TRUTH - P (TRUTH_V1)\nEND\nTRUTH - P (TRUTH_V2)\nstuff\n")).take 2)).foldr max 0,
        2) :=
  ⟨(repair_truncates_only_trailing "TRUTH - P (TRUTH_V1)\nstuff\nTRUTH - P (TRUTH_V2)\nEND\n"
      2).1 0 1 (by decide),
   (repair_truncates_only_trailing "TRUTH - P (TRUTH_V1)\nEND\nTRUTH - P (TRUTH_V2)\nstuff\n"
      2).2 2 2 (by decide)⟩

/-! ## C10 — exactly the header-to-END slice is appended -/

theorem mem_of_mem_dropTrailingWhile (p : Char → Bool) (l : List Char) (a : Char)
    (h : a ∈ dropTrailingWhile p l) : a ∈ l := by
  unfold dropTrailingWhile at h
  rw [List.mem_reverse] at h
  exact List.mem_reverse.1 ((List.dropWhile_sublist p).subset h)

theorem mem_of_mem_pyStripChars (l : List Char) (a : Char)
    (h : a ∈ pyStripChars l) : a ∈ l := by
  unfold pyStripChars at h
  exact (List.dropWhile_sublist isPySpace).subset (mem_of_mem_dropTrailingWhile _ _ _ h)

/-- Every character of a normalized candidate line is a character of the
original line, or one of the two bullet-replacement characters. -/
theorem normalize_keeps_chars (l : String) :
    ∀ a ∈ (normalizeTruthCandidate l).data, a ∈ l.data ∨ a = '-' ∨ a = ' ' := by
  intro a ha
  have hbom : ∀ b, b ∈ (pyStripBom l).data → b ∈ l.data := fun b hb =>
    (List.dropWhile_sublist _).subset hb
  have hsl : ∀ b, b ∈ (dropTrailingWhile (fun c => c = '\r' || c = '\n')
      (pyStripBom l).data) → b ∈ l.data := fun b hb =>
    hbom b (mem_of_mem_dropTrailingWhile _ _ _ hb)
  simp only [normalizeTruthCandidate] at ha
  split at ha
  · split at ha
    · rw [List.mem_append] at ha
      rcases ha with ha | ha
      · exact Or.inl (hsl a ((List.takeWhile_sublist _).subset ha))
      · refine Or.inl (hsl a ?_)
        have h1 := mem_of_mem_pyStripChars _ _ ha
        have h2 := (List.dropWhile_sublist (fun c => c = '#')).subset h1
        exact mem_of_mem_pyStripChars _ _ h2
    · exact Or.inl (hsl a ha)
  · split at ha
    · rw [List.mem_append] at ha
      rcases ha with ha | ha
      · exact Or.inl (hsl a ((List.takeWhile_sublist _).subset ha))
      · rcases List.mem_cons.1 ha with rfl | ha
        · exact Or.inr (Or.inl rfl)
        · rcases List.mem_cons.1 ha with rfl | ha
          · exact Or.inr (Or.inr rfl)
          · refine Or.inl (hsl a ?_)
            exact mem_of_mem_pyStripChars _ _ (List.mem_of_mem_drop ha)
    · exact Or.inl (hsl a ha)

theorem normalize_no_newline (l : String) (h : '\n' ∉ l.data) :
    '\n' ∉ (normalizeTruthCandidate l).data := by
  intro hmem
  rcases normalize_keeps_chars l '\n' hmem with hc | hc | hc
  · exact h hc
  · exact absurd hc (by decide)
  · exact absurd hc (by decide)

theorem appendBlockLines_no_newline (blockText : String) :
    ∀ x ∈ appendBlockLines blockText, '\n' ∉ x.data := by
  intro x hx
  simp only [appendBlockLines, List.mem_map] at hx
  obtain ⟨y, hy, rfl⟩ := hx
  exact normalize_no_newline y (splitLines_no_newline _ y hy)

theorem findEndIdx_some (ls : List String) (e : Nat) (h : findEndIdx ls = some e) :
    ∃ l, ls[e]? = some l ∧ pyStrip (pyStripBom l) = "END" := by
  induction ls generalizing e with
  | nil => exact Option.noConfusion h
  | cons x xs ih =>
    simp only [findEndIdx] at h
    split at h
    · rename_i hx
      cases h
      exact ⟨x, by simp, hx⟩
    · cases he : findEndIdx xs with
      | none =>
        rw [he] at h
        exact Option.noConfusion h
      | some e2 =>
        rw [he] at h
        simp only [Option.map_some'] at h
        cases h
        obtain ⟨l, hl, hend⟩ := ih e2 he
        exact ⟨l, by rw [List.getElem?_cons_succ]; exact hl, hend⟩

theorem findFirstHeader_some (ls : List String) (i : Nat) (p : String) (v : Nat)
    (h : findFirstHeader ls = some (i, p, v)) :
    ∃ l tag, ls[i]? = some l ∧ parseHeaderLine (pyStrip (pyStripBom l)) = some (p, v, tag) := by
  induction ls generalizing i with
  | nil => exact Option.noConfusion h
  | cons x xs ih =>
    simp only [findFirstHeader] at h
    cases hx : parseHeaderLine (pyStrip (pyStripBom x)) with
    | some t =>
      rw [hx] at h
      obtain ⟨p2, v2, tag2⟩ := t
      cases h
      exact ⟨x, tag2, by simp, hx⟩
    | none =>
      rw [hx] at h
      cases hf : findFirstHeader xs with
      | none =>
        rw [hf] at h
        exact Option.noConfusion h
      | some t =>
        rw [hf] at h
        obtain ⟨i2, p2, v2⟩ := t
        cases h
        obtain ⟨l, tag, hl, hp⟩ := ih i2 hf
        exact ⟨l, tag, by rw [List.getElem?_cons_succ]; exact hl, hp⟩

theorem hasMarkerLine_END_of_findEndIdx (lines : List String) (i e : Nat)
    (h : findEndIdx (lines.drop i) = some e) : hasMarkerLine "END" lines = true := by
  obtain ⟨l, hl, hend⟩ := findEndIdx_some _ _ h
  have hmem : l ∈ lines.drop i := by
    have := List.getElem?_eq_some_iff.1 hl
    obtain ⟨hlt, hget⟩ := this
    exact hget ▸ List.getElem_mem hlt
  have hmem2 : l ∈ lines := List.mem_of_mem_drop hmem
  simp only [hasMarkerLine, List.any_eq_true]
  exact ⟨l, hmem2, by simp [hend]⟩

theorem getLast?_cons_of_ne_nil {α : Type} (a : α) (l : List α) (h : l ≠ []) :
    (a :: l).getLast? = l.getLast? := by
  cases l with
  | nil => exact absurd rfl h
  | cons b bs => simp

theorem getLast?_take_succ (l : List String) (e : Nat) (x : String)
    (h : l[e]? = some x) : (l.take (e + 1)).getLast? = some x := by
  induction l generalizing e with
  | nil => exact Option.noConfusion h
  | cons a as ih =>
    cases e with
    | zero =>
      simp only [List.getElem?_cons_zero, Option.some.injEq] at h
      subst h
      simp
    | succ e2 =>
      simp only [List.getElem?_cons_succ] at h
      have h2 := ih e2 h
      have hne : as.take (e2 + 1) ≠ [] := by
        intro he
        rw [he] at h2
        exact Option.noConfusion h2
      rw [List.take_succ_cons, getLast?_cons_of_ne_nil a _ hne, h2]

theorem data_head?_joinLines (x : String) (rest : List String) :
    x.data ≠ [] → (joinLines (x :: rest)).data.head? = x.data.head? := by
  intro hx
  cases rest with
  | nil => rfl
  | cons y ys =>
    show (x.data ++ '\n' :: joinChar '\n' ((y :: ys).map String.data)).head? = x.data.head?
    cases hxe : x.data with
    | nil => exact absurd hxe hx
    | cons c cs => simp

theorem pyStripNl_eq_self (s : String)
    (hh : ∀ c, s.data.head? = some c → ¬c = '\n')
    (hl : ∀ c, s.data.getLast? = some c → ¬c = '\n') : pyStripNl s = s := by
  obtain ⟨d⟩ := s
  show String.mk (dropTrailingWhile (fun c => c = '\n')
    (d.dropWhile (fun c => c = '\n'))) = String.mk d
  congr 1
  cases d with
  | nil => rfl
  | cons c cs =>
    have hc : ¬c = '\n' := hh c rfl
    rw [List.dropWhile_cons_of_neg (by simpa using hc)]
    apply dropTrailingWhile_eq_self
    intro y hy
    simpa using hl y hy

theorem data_getLast?_joinLines (L : List String) (x : String)
    (hx : L.getLast? = some x) (hne : x.data ≠ []) :
    (joinLines L).data.getLast? = x.data.getLast? := by
  obtain ⟨init, rfl⟩ : ∃ init, L = init ++ [x] := by
    obtain ⟨init, hinit⟩ := List.getLast?_eq_some_iff.1 hx
    exact ⟨init, hinit⟩
  rcases eq_or_ne init [] with rfl | hinit
  · rfl
  · show (joinChar '\n' ((init ++ [x]).map String.data)).getLast? = x.data.getLast?
    rw [List.map_append, List.map_cons, List.map_nil,
      joinChar_append_single '\n' (init.map String.data) x.data (by simpa using hinit),
      List.getLast?_append]
    obtain ⟨ch, hch⟩ : ∃ ch, x.data.getLast? = some ch := by
      cases hxl : x.data.getLast? with
      | none => exact absurd (List.getLast?_eq_none_iff.1 hxl) hne
      | some c0 => exact ⟨c0, rfl⟩
    obtain ⟨d, ds, hxe⟩ : ∃ d ds, x.data = d :: ds := by
      cases hxq : x.data with
      | nil => exact absurd hxq hne
      | cons d ds => exact ⟨d, ds, rfl⟩
    rw [hxe, List.getLast?_cons_cons, ← hxe, hch]
    rfl

/-- C10 (amended): for a draft accepted by the append operation in which a
standalone END line occurs at or after the first header-matching line, the
appended block consists exactly of the normalized draft lines from the
header line through the first such END line: everything before the header
and everything after that END is discarded, and nothing else is trimmed.
(C10 as stated fails when the draft's only standalone END lines precede
the header: the draft is still accepted and the whole remainder after the
header is appended unterminated — see the counterexample.) -/
theorem append_keeps_header_to_first_end (project : String) (newVer : Nat)
    (blockText curText : String) (pr : Bool) (i e : Nat)
    (hhdr : findFirstHeader (appendBlockLines blockText) = some (i, project, newVer))
    (hend : findEndIdx ((appendBlockLines blockText).drop i) = some e)
    (hph : phasedBlockOk pr (appendBlockLines blockText) = true) :
    append_truth_md_verbatim project newVer blockText pr curText =
      .ok ((pyRstripNl (normNewlines curText) ++ "\n\n") ++
        (joinLines (((appendBlockLines blockText).drop i).take (e + 1)) ++ "\n") ++ "\n") := by
  have hEndAll : hasMarkerLine "END" (appendBlockLines blockText) = true :=
    hasMarkerLine_END_of_findEndIdx _ i e hend
  obtain ⟨hl, tag, hgetH, hparse⟩ := findFirstHeader_some _ i project newVer hhdr
  obtain ⟨lend, hgetE, hendE⟩ := findEndIdx_some _ e hend
  have hiLt : i < (appendBlockLines blockText).length :=
    (List.getElem?_eq_some_iff.1 hgetH).1
  have hgetH2 : (appendBlockLines blockText)[i] = hl := by
    obtain ⟨h1, h2⟩ := List.getElem?_eq_some_iff.1 hgetH
    exact h2
  have hdropEq : (appendBlockLines blockText).drop i =
      hl :: (appendBlockLines blockText).drop (i + 1) := by
    rw [List.drop_eq_getElem_cons hiLt, hgetH2]
  have hl_nl : '\n' ∉ hl.data :=
    appendBlockLines_no_newline blockText hl
      (hgetH2 ▸ List.getElem_mem hiLt)
  have hstrip_ne : pyStrip (pyStripBom hl) ≠ "" := by
    intro he
    rw [he] at hparse
    have hnone : parseHeaderLine "" = none := by decide
    rw [hnone] at hparse
    exact Option.noConfusion hparse
  have hl_ne : hl.data ≠ [] := by
    intro he
    apply hstrip_ne
    have : hl = "" := by rw [← string_mk_data hl, he]
    rw [this]
    rfl
  have hlendmem : lend ∈ (appendBlockLines blockText).drop i := by
    obtain ⟨h1, h2⟩ := List.getElem?_eq_some_iff.1 hgetE
    exact h2 ▸ List.getElem_mem h1
  have hlend_nl : '\n' ∉ lend.data :=
    appendBlockLines_no_newline blockText lend (List.mem_of_mem_drop hlendmem)
  have hlend_ne : lend.data ≠ [] := by
    intro he
    have : lend = "" := by rw [← string_mk_data lend, he]
    rw [this] at hendE
    exact absurd hendE (by decide)
  have hlastSlice : (((appendBlockLines blockText).drop i).take (e + 1)).getLast? =
      some lend := getLast?_take_succ _ e lend hgetE
  have hnoop : pyStripNl (joinLines (((appendBlockLines blockText).drop i).take (e + 1))) =
      joinLines (((appendBlockLines blockText).drop i).take (e + 1)) := by
    apply pyStripNl_eq_self
    · intro c hc
      have hsliceEq : ((appendBlockLines blockText).drop i).take (e + 1) =
          hl :: (((appendBlockLines blockText).drop (i + 1)).take e) := by
        rw [hdropEq, List.take_succ_cons]
      rw [hsliceEq, data_head?_joinLines hl _ hl_ne] at hc
      intro hcn
      exact hl_nl (hcn ▸ List.mem_of_mem_head? hc)
    · intro c hc
      rw [data_getLast?_joinLines _ lend hlastSlice hlend_ne] at hc
      intro hcn
      exact hlend_nl (hcn ▸ List.mem_of_getLast?_eq_some hc)
  have hphpair : (pr && hasMarkerLine "LOCKED" (appendBlockLines blockText)) = false ∧
      (pr && !(hasMarkerLine "LOCKED PRE" (appendBlockLines blockText)
        && hasMarkerLine "LOCKED POST" (appendBlockLines blockText))) = false := by
    cases pr with
    | false => simp
    | true =>
      simp only [phasedBlockOk, Bool.not_true, Bool.false_or, Bool.and_eq_true,
        Bool.not_eq_true'] at hph
      simp [hph.1.1, hph.1.2, hph.2]
  simp only [append_truth_md_verbatim, hhdr]
  rw [if_neg (by simp), if_neg (by simp), if_neg (by simp [hEndAll]),
    if_neg (by rw [hphpair.1]; simp), if_neg (by rw [hphpair.2]; simp)]
  rw [hend]
  rw [hnoop]

/-- C10 counterexample: the claim as stated is false. This draft's only
standalone END line precedes the header; the append is accepted, yet the
appended block (`TRUTH - P (TRUTH_V2)` / `X`) is not the span from the
header through the first standalone END — it contains no END line at all,
and the content after the draft's first END was not discarded. -/
theorem append_end_before_header_counterexample :
    append_truth_md_verbatim "P" 2 "END\nTRUTH - P (TRUTH_V2)\nX" false
        "TRUTH - P (TRUTH_V1)\nEND\n" =
      .ok "TRUTH - P (TRUTH_V1)\nEND\n\nTRUTH - P (TRUTH_V2)\nX\n\n" ∧
    findEndIdx (appendBlockLines "END\nTRUTH - P (TRUTH_V2)\nX") = some 0 ∧
    findFirstHeader (appendBlockLines "END\nTRUTH - P (TRUTH_V2)\nX") = some (1, "P", 2) ∧
    hasMarkerLine "END" ["TRUTH - P (TRUTH_V2)", "X"] = false := by decide

/-- C10 witness: a draft with junk before the header and content after the
END appends exactly the header-to-END slice. -/
theorem append_keeps_header_to_first_end_witness :
    append_truth_md_verbatim "P" 2 "junk\nTRUTH - P (TRUTH_V2)\nbody\nEND\nafter" false "C\n" =
      .ok ((pyRstripNl (normNewlines "C\n") ++ "\n\n") ++
        (joinLines (((appendBlockLines "junk\nTRUTH - P (TRUTH_V2)\nbody\nEND\nafter").drop 1).take
          (2 + 1)) ++ "\n") ++ "\n") :=
  append_keeps_header_to_first_end "P" 2 "junk\nTRUTH - P (TRUTH_V2)\nbody\nEND\nafter" "C\n"
    false 1 2 (by decide) (by decide) (by decide)

/-! ## C1 — rollback on failures at or after MUTATE -/

/-- C1 counterexample: the claim as stated is false. When the FULL archive
build itself fails (here: the case-insensitive duplicate `A.txt`/`a.txt`),
the rollback restores the ledger and the version marker, but only the
final-named archives are deleted: the partially written temporary archive
file `tmp_P_TRUTH_V2_FULL.zip` remains on disk. -/
theorem rollback_leaves_tmp_archive :
    confirmFailedPostMutate (confirm_draft stDupW dataW orcW).1 = true ∧
    (confirm_draft stDupW dataW orcW).2.truthMd = stDupW.truthMd ∧
    (confirm_draft stDupW dataW orcW).2.versionPy = stDupW.versionPy ∧
    (confirm_draft stDupW dataW orcW).2.zipFiles = [tmpZipName (fullZipName "P" 2)] := by
  decide

/-- C1 (amended): every failure raised at or after the MUTATE step triggers
rollback, after which the ledger document and the version marker equal
their pre-transaction snapshot and the release archives at their final
names (`<project>_TRUTH_V<new>_FULL.zip` / `_SLIM.zip`) are absent from the
archive root — though a partially written `tmp_`-prefixed build file may
remain when the failure occurred inside an archive build. -/
theorem confirm_rollback_restores (st : RepoState) (data : ConfigData) (orc : StepOracle)
    (hpm : confirmFailedPostMutate (confirm_draft st data orc).1 = true) :
    (confirm_draft st data orc).2.truthMd = st.truthMd ∧
    (confirm_draft st data orc).2.versionPy = st.versionPy ∧
    fullZipName st.versionPy.project (st.versionPy.ver + 1) ∉
      (confirm_draft st data orc).2.zipFiles ∧
    slimZipName st.versionPy.project (st.versionPy.ver + 1) ∉
      (confirm_draft st data orc).2.zipFiles := by
  by_cases hpre : orc.preVerifyOk = true
  case neg =>
    have hb : orc.preVerifyOk = false := by revert hpre; cases orc.preVerifyOk <;> simp
    have heq : confirm_draft st data orc = (.error .preVerify, st) := by
      simp [confirm_draft, hb]
    rw [heq] at hpm
    exact Bool.noConfusion hpm
  case pos =>
  cases hpend : find_pending_draft st.versionPy.project (st.drafts.map (fun d => d.name)) with
  | none =>
    have heq : confirm_draft st data orc = (.error .noPendingDraft, st) := by
      simp [confirm_draft, hpre, hpend]
    rw [heq] at hpm
    exact Bool.noConfusion hpm
  | some p =>
    obtain ⟨v, name⟩ := p
    by_cases hv : v = st.versionPy.ver + 1
    case neg =>
      have heq : confirm_draft st data orc =
          (.error (.draftVersionMismatch v (st.versionPy.ver + 1)), st) := by
        simp [confirm_draft, hpre, hpend, hv]
      rw [heq] at hpm
      exact Bool.noConfusion hpm
    case pos =>
      subst hv
      by_cases hbk : orc.backupOk = true
      case neg =>
        have hb : orc.backupOk = false := by revert hbk; cases orc.backupOk <;> simp
        have heq : confirm_draft st data orc = (.error .backup, st) := by
          simp [confirm_draft, hpre, hpend, hb]
        rw [heq] at hpm
        exact Bool.noConfusion hpm
      case pos =>
        cases hpl : confirmPipeline st (TruthConfig.load data) orc st.versionPy.project
            (st.versionPy.ver + 1) (draftContent st name) with
        | ok stOk =>
          have h1 : (confirm_draft st data orc).1 = .ok (st.versionPy.ver + 1) := by
            simp [confirm_draft, hpre, hpend, hbk, hpl]
          rw [h1] at hpm
          exact Bool.noConfusion hpm
        | error p2 =>
          obtain ⟨e, stE⟩ := p2
          have heq : confirm_draft st data orc =
              confirmRollback st.truthMd st.versionPy st.versionPy.project
                (st.versionPy.ver + 1) e stE := by
            simp [confirm_draft, hpre, hpend, hbk, hpl]
          rw [heq]
          refine ⟨rfl, rfl, ?_, ?_⟩
          · intro hmem
            have hm2 := (List.mem_filter.1 hmem).2
            simp at hm2
          · intro hmem
            have hm2 := (List.mem_filter.1 hmem).2
            simp at hm2

/-- C1 witness: a failure at POST_VERIFY on the concrete good state rolls
back to the original ledger, marker and (empty) archive set. -/
theorem confirm_rollback_restores_witness :
    (confirm_draft stGoodW dataW orcPostFailW).2.truthMd = stGoodW.truthMd ∧
    (confirm_draft stGoodW dataW orcPostFailW).2.versionPy = stGoodW.versionPy ∧
    fullZipName stGoodW.versionPy.project (stGoodW.versionPy.ver + 1) ∉
      (confirm_draft stGoodW dataW orcPostFailW).2.zipFiles ∧
    slimZipName stGoodW.versionPy.project (stGoodW.versionPy.ver + 1) ∉
      (confirm_draft stGoodW dataW orcPostFailW).2.zipFiles :=
  confirm_rollback_restores stGoodW dataW orcPostFailW (by decide)

end Spec2Proof
